import Mathlib

/-!
Verification development for the solubility-data extraction pipeline
(repository `fetch_solubility_data`).

The Python modules under `scripts/` are shallowly embedded as executable
Lean definitions:

* `scripts/utils.py` : `advanced_clean`, `make_columns_unique`;
* `scripts/phase_extractor.py` : `PhaseExtractor.extract_phase`;
* `scripts/multi_method_extractor.py` : `compare_extractions`,
  `_build_consensus`, `_most_common_value`;
* `scripts/quality_validator.py` : `ScientificValidator.validate_table`
  and `_calculate_validation_score`;
* `scripts/header_detector.py` : `HeaderDetector.detect_headers`.

Modelling conventions, used throughout:

* Python strings are Lean `String`s, handled as their `List Char` data;
  character classes (`\d`, `\s`, `\w`) are modelled over ASCII, which is
  the alphabet of the OCR text this pipeline processes.
* `None`/`NaN` cells are `Option.none`.
* Python `float` values are modelled by exact unreduced fractions
  (`Frac` below); every comparison the claims depend on involves either
  small integers or literal decimal constants, where float arithmetic is
  exact.
* Regular expressions are compiled by hand into deterministic scanners.
  For every pattern appearing in the sources, greedy/lazy backtracking
  has a unique possible outcome (each quantified class is disjoint from
  the character that must follow it), so the scanners implement exactly
  the Python `re` semantics; this is noted at each definition.
* Recursive scanners that consume a variable-length prefix per step use
  an explicit fuel argument initialised with the input length; each step
  consumes at least one character, so the fuel never runs out on the
  initial call.  The fuel-exhausted branch returns the input unchanged.
-/

namespace SolubilityPipeline

/-- Python `\s` over ASCII: space, tab, newline, carriage return,
vertical tab, form feed. -/
def pyIsSpace (c : Char) : Bool :=
  c = ' ' || c = '\t' || c = '\n' || c = '\x0d' || c = '\x0b' || c = '\x0c'

/-- Python `\d` over ASCII. -/
def isDigitC (c : Char) : Bool :=
  '0' ≤ c && c ≤ '9'

/-- Character class `[A-Z]`. -/
def isUpperAZ (c : Char) : Bool :=
  'A' ≤ c && c ≤ 'Z'

/-- Character class `[A-F]`. -/
def isAF (c : Char) : Bool :=
  'A' ≤ c && c ≤ 'F'

/-- Python `\w` over ASCII: letters, digits, underscore. -/
def isWordC (c : Char) : Bool :=
  c.isAlphanum || c = '_'

/-- Character class `[0-9.]` used by the reference-marker regex. -/
def isDigitDot (c : Char) : Bool :=
  isDigitC c || c = '.'

/-- Python `str.strip()` (whitespace from both ends). -/
def pyStrip (l : List Char) : List Char :=
  ((l.dropWhile pyIsSpace).reverse.dropWhile pyIsSpace).reverse

/-- Number of leading whitespace characters. -/
def countSpaces (l : List Char) : Nat :=
  (l.takeWhile pyIsSpace).length

/-- Every character of the list is whitespace. -/
def allSpaces (l : List Char) : Bool :=
  l.all pyIsSpace

/-- Matcher for `\s+` followed by one character satisfying `p`: returns the
matched character and the remaining suffix.  The greedy `\s+` has a unique
viable extent because the follower classes used in the sources never contain
whitespace. -/
def spacesThen (p : Char → Bool) (l : List Char) : Option (Char × List Char) :=
  let n := countSpaces l
  if 0 < n then
    match l.drop n with
    | c :: r => if p c then some (c, r) else none
    | [] => none
  else none

/-! ### `utils.advanced_clean` (scripts/utils.py, lines 11-52)

`re.match(r'([0-9.]+)\s*[\(\[]([A-Z][\w.]*?)[\)\]]', text)`:
the greedy `[0-9.]+` and `\s*` each have a unique viable extent (a shorter
take leaves a digit/dot resp. space where a bracket is required), and the
lazy `[\w.]*?` stops at the first character outside `[\w.]`, which must then
be a closing bracket.  So the following deterministic scan is exact. -/

/-- Tail of the reference-marker regex after its `[A-Z]`: lazily skip `[\w.]`
characters until the first other character, which must close the bracket. -/
def refMarkerTail : List Char → Bool
  | [] => false
  | c :: rest =>
    if c = ')' || c = ']' then true
    else if isWordC c || c = '.' then refMarkerTail rest
    else false

/-- Anchored match of `([0-9.]+)\s*[\(\[]([A-Z][\w.]*?)[\)\]]`, returning
capture group 1 (the numeric token). -/
def refMatch (l : List Char) : Option (List Char) :=
  let num := l.takeWhile isDigitDot
  let rest := l.dropWhile isDigitDot
  if num.isEmpty then none
  else
    match rest.drop (countSpaces rest) with
    | c :: r3 =>
      if c = '(' || c = '[' then
        match r3 with
        | d :: r4 => if isUpperAZ d && refMarkerTail r4 then some num else none
        | [] => none
      else none
    | [] => none

/-- Global substitution `re.sub(r'(\d),(\d)', r'\1.\2', ...)`: scanning is
left to right and resumes after each (three-character) match, exactly as
`re.sub` does. -/
def subCommaGo : Nat → List Char → List Char
  | _, [] => []
  | 0, l => l
  | fuel + 1, a :: rest =>
    match rest with
    | b :: c :: rest2 =>
      if isDigitC a && b = ',' && isDigitC c then a :: '.' :: c :: subCommaGo fuel rest2
      else a :: subCommaGo fuel rest
    | _ => a :: subCommaGo fuel rest

def subComma (l : List Char) : List Char :=
  subCommaGo l.length l

/-- Global substitution `re.sub(r'(\d)\s+\.', r'\1.', ...)` (fuel-driven;
each step consumes at least one character). -/
def subDigitSpaceDotGo : Nat → List Char → List Char
  | _, [] => []
  | 0, l => l
  | fuel + 1, c :: rest =>
    if isDigitC c then
      match spacesThen (fun d => d = '.') rest with
      | some (_, r2) => c :: '.' :: subDigitSpaceDotGo fuel r2
      | none => c :: subDigitSpaceDotGo fuel rest
    else c :: subDigitSpaceDotGo fuel rest

def subDigitSpaceDot (l : List Char) : List Char :=
  subDigitSpaceDotGo l.length l

/-- Global substitution `re.sub(r'(\d)\s+(\d)', r'\1\2', ...)`; the match
consumes both digits, so scanning resumes after the second digit. -/
def subDigitSpaceDigitGo : Nat → List Char → List Char
  | _, [] => []
  | 0, l => l
  | fuel + 1, c :: rest =>
    if isDigitC c then
      match spacesThen isDigitC rest with
      | some (d, r2) => c :: d :: subDigitSpaceDigitGo fuel r2
      | none => c :: subDigitSpaceDigitGo fuel rest
    else c :: subDigitSpaceDigitGo fuel rest

def subDigitSpaceDigit (l : List Char) : List Char :=
  subDigitSpaceDigitGo l.length l

/-- Global substitution `re.sub(r'\.\s+(\d)', r'.\1', ...)`. -/
def subDotSpaceDigitGo : Nat → List Char → List Char
  | _, [] => []
  | 0, l => l
  | fuel + 1, c :: rest =>
    if c = '.' then
      match spacesThen isDigitC rest with
      | some (d, r2) => '.' :: d :: subDotSpaceDigitGo fuel r2
      | none => c :: subDotSpaceDigitGo fuel rest
    else c :: subDotSpaceDigitGo fuel rest

def subDotSpaceDigit (l : List Char) : List Char :=
  subDotSpaceDigitGo l.length l

/-- Python `str.replace(pat, rep)`: literal, global, non-overlapping,
left to right.  All patterns used by the sources are non-empty. -/
def replaceAllGo (pat rep : List Char) : Nat → List Char → List Char
  | _, [] => []
  | 0, l => l
  | fuel + 1, c :: rest =>
    if pat ≠ [] && pat.isPrefixOf (c :: rest) then
      rep ++ replaceAllGo pat rep fuel ((c :: rest).drop pat.length)
    else c :: replaceAllGo pat rep fuel rest

def replaceAll (pat rep l : List Char) : List Char :=
  replaceAllGo pat rep l.length l

/-- True when a word boundary (`\b`) holds between the previous character and
the start of the given suffix. -/
def boundaryBefore (prevWord : Bool) : Bool :=
  !prevWord

/-- True when `\b` holds after a word character at the end of a match: the
suffix is empty or starts with a non-word character. -/
def boundaryAfter : List Char → Bool
  | [] => true
  | c :: _ => !isWordC c

/-- Global substitution `re.sub(r'\bs\s*o\b', '50', ...)`.  The scanner
tracks whether the previous character was a word character to decide the
leading `\b`; after a replacement it resumes after the matched `o`. -/
def soSubGo : Nat → Bool → List Char → List Char
  | _, _, [] => []
  | 0, _, l => l
  | fuel + 1, prevWord, c :: rest =>
    if c = 's' && boundaryBefore prevWord then
      match (rest.drop (countSpaces rest)).head? with
      | some 'o' =>
        let r2 := (rest.drop (countSpaces rest)).tail
        if boundaryAfter r2 then '5' :: '0' :: soSubGo fuel true r2
        else c :: soSubGo fuel true rest
      | _ => c :: soSubGo fuel true rest
    else c :: soSubGo fuel (isWordC c) rest

def soSub (l : List Char) : List Char :=
  soSubGo l.length false l

/-- Parser for the part of `\b0\s*\.\s*s\s*o\b` after the leading `0`:
`\s*`, `.`, `\s*`, `s`, `\s*`, `o`, then a trailing word boundary.
Returns the suffix after the matched `o`. -/
def zeroSoTail (l : List Char) : Option (List Char) :=
  let a := l.drop (countSpaces l)
  if a.head? = some '.' then
    let b := a.tail.drop (countSpaces a.tail)
    if b.head? = some 's' then
      let c := b.tail.drop (countSpaces b.tail)
      if c.head? = some 'o' then
        if boundaryAfter c.tail then some c.tail else none
      else none
    else none
  else none

/-- Global substitution `re.sub(r'\b0\s*\.\s*s\s*o\b', '0.50', ...)`. -/
def zeroSoSubGo : Nat → Bool → List Char → List Char
  | _, _, [] => []
  | 0, _, l => l
  | fuel + 1, prevWord, c :: rest =>
    if c = '0' && boundaryBefore prevWord then
      match zeroSoTail rest with
      | some r3 => '0' :: '.' :: '5' :: '0' :: zeroSoSubGo fuel true r3
      | none => c :: zeroSoSubGo fuel true rest
    else c :: zeroSoSubGo fuel (isWordC c) rest

def zeroSoSub (l : List Char) : List Char :=
  zeroSoSubGo l.length false l

/-- Ordered literal OCR substring fixes applied by `advanced_clean`
(also recorded as `OCR_FIXES` in scripts/utils.py). -/
def ocrFixes : List (String × String) :=
  [("mo1", "mol"), ("Q .", "0."), ("a .", "0."), ("I I", "II"),
   ("0. so", "0.50"), (". so", ".50")]

/-- Embedding of `utils.advanced_clean` on the character list of a non-null
cell value.  Mirrors the source line by line: reference-marker extraction
(early return of group 1), decimal-separator repair, the three
whitespace-in-number repairs, the literal OCR fixes, the two word-boundary
`s o` repairs, and a final strip. -/
def advancedCleanChars (l : List Char) : List Char :=
  match refMatch l with
  | some num => num
  | none =>
    let t1 := subComma l
    let t2 := subDigitSpaceDot t1
    let t3 := subDigitSpaceDigit t2
    let t4 := subDotSpaceDigit t3
    let t5 := ocrFixes.foldl (fun acc p => replaceAll p.1.data p.2.data acc) t4
    let t6 := soSub t5
    let t7 := zeroSoSub t6
    pyStrip t7

/-- Embedding of `utils.advanced_clean`.  A null/NaN input passes through as
`none`; any other input is processed as a string. -/
def advancedClean (v : Option String) : Option String :=
  v.map (fun s => ⟨advancedCleanChars s.data⟩)

/-! ### `PhaseExtractor.extract_phase` (scripts/phase_extractor.py, lines 29-66)

The three `PHASE_PATTERNS` are all anchored at the end of the string
(`...\s*$`), so `re.search` succeeds iff some suffix matches, the leftmost
such start wins, and `re.sub(pattern, '')` deletes exactly that suffix.
Inside the patterns every quantified class is disjoint from its required
follower, so matching is deterministic (see the module comment). -/

/-- Quick-check regex `^[A-F](\+[A-F])?$|^I{1,3}$` of `extract_phase`. -/
def quickPhaseRe : List Char → Bool
  | [c] => isAF c || c = 'I'
  | [c1, c2] => c1 = 'I' && c2 = 'I'
  | [a, p, b] => (isAF a && p = '+' && isAF b) || (a = 'I' && p = 'I' && b = 'I')
  | _ => false

/-- Shape of `\d+\.?\d*`: non-empty, leading digit, only digits and at most
one dot. -/
def digitDotShape (l : List Char) : Bool :=
  match l with
  | c :: _ => isDigitC c && l.all isDigitDot && decide (l.count '.' ≤ 1)
  | [] => false

/-- Matcher for the part of phase pattern 1 after its opening parenthesis:
`([A-F](?:\+[A-F])?|[A-F]\d+\.?\d*)\)\s*$`.  Returns the captured token. -/
def p1After (l : List Char) : Option (List Char) :=
  match l with
  | c1 :: rest =>
    if isAF c1 then
      match rest with
      | ')' :: r2 => if allSpaces r2 then some [c1] else none
      | '+' :: c2 :: ')' :: r2 =>
        if isAF c2 && allSpaces r2 then some [c1, '+', c2] else none
      | _ =>
        let run := rest.takeWhile isDigitDot
        if digitDotShape run then
          match rest.dropWhile isDigitDot with
          | ')' :: r3 => if allSpaces r3 then some (c1 :: run) else none
          | _ => none
        else none
    else none
  | [] => none

/-- Match of phase pattern 1, `\s*\(([A-F](?:\+[A-F])?|[A-F]\d+\.?\d*)\)\s*$`,
anchored at the start of the given suffix. -/
def p1At (l : List Char) : Option (List Char) :=
  match l.drop (countSpaces l) with
  | '(' :: r2 => p1After r2
  | _ => none

/-- Leftmost start of a match of phase pattern 1, with the captured token. -/
def p1Find : List Char → Option (Nat × List Char)
  | [] => none
  | c :: rest =>
    match p1At (c :: rest) with
    | some tok => some (0, tok)
    | none => (p1Find rest).map (fun p => (p.1 + 1, p.2))

/-- Token alternatives of phase pattern 2: `[A-F]|I{1,3}|IV|V|VI`.  The
alternation has a unique viable choice for any trailing-whitespace suffix
(no alternative extended by whitespace equals another). -/
def p2TokOk (l : List Char) : Bool :=
  match l with
  | [c] => isAF c || c = 'I' || c = 'V'
  | [c1, c2] => (c1 = 'I' && c2 = 'I') || (c1 = 'I' && c2 = 'V') || (c1 = 'V' && c2 = 'I')
  | [c1, c2, c3] => c1 = 'I' && c2 = 'I' && c3 = 'I'
  | _ => false

/-- Match of phase pattern 2, `\s+([A-F]|I{1,3}|IV|V|VI)\s*$`, anchored at
the start of the given suffix: one-or-more spaces, then a token made of the
following maximal non-space run, then only whitespace to the end. -/
def p2At (l : List Char) : Option (List Char) :=
  match spacesThen (fun c => !pyIsSpace c) l with
  | some (c, r) =>
    let tok := c :: r.takeWhile (fun d => !pyIsSpace d)
    let rest := r.dropWhile (fun d => !pyIsSpace d)
    if p2TokOk tok && allSpaces rest then some tok else none
  | none => none

/-- Leftmost start of a match of phase pattern 2. -/
def p2Find : List Char → Option (Nat × List Char)
  | [] => none
  | c :: rest =>
    match p2At (c :: rest) with
    | some tok => some (0, tok)
    | none => (p2Find rest).map (fun p => (p.1 + 1, p.2))

/-- Token of phase pattern 3: `[A-F]\+[A-F]`. -/
def p3TokOk (l : List Char) : Bool :=
  match l with
  | [a, p, b] => isAF a && p = '+' && isAF b
  | _ => false

/-- Match of phase pattern 3, `\s+([A-F]\+[A-F])\s*$`, anchored at the start
of the given suffix. -/
def p3At (l : List Char) : Option (List Char) :=
  match spacesThen (fun c => !pyIsSpace c) l with
  | some (c, r) =>
    let tok := c :: r.takeWhile (fun d => !pyIsSpace d)
    let rest := r.dropWhile (fun d => !pyIsSpace d)
    if p3TokOk tok && allSpaces rest then some tok else none
  | none => none

/-- Leftmost start of a match of phase pattern 3. -/
def p3Find : List Char → Option (Nat × List Char)
  | [] => none
  | c :: rest =>
    match p3At (c :: rest) with
    | some tok => some (0, tok)
    | none => (p3Find rest).map (fun p => (p.1 + 1, p.2))

/-- Sentinel list checked after a phase match:
`['', '-', '--', '----', '---']`. -/
def cleanedSentinels : List (List Char) :=
  [[], ['-'], ['-', '-'], ['-', '-', '-', '-'], ['-', '-', '-']]

/-- Sentinel list checked when no phase pattern matched:
`['', '-', '--', '----']` (note: `'---'` is absent in the source). -/
def noMatchSentinels : List (List Char) :=
  [[], ['-'], ['-', '-'], ['-', '-', '-', '-']]

/-- Common tail of the three pattern branches of `extract_phase`: strip the
residue left after deleting the matched suffix; if it is empty or a listed
sentinel, the value becomes null. -/
def phaseResult (pre tok : List Char) : Option String × Option String :=
  let cleaned := pyStrip pre
  if cleaned ∈ cleanedSentinels then (none, some ⟨tok⟩)
  else (some ⟨cleaned⟩, some ⟨tok⟩)

/-- Embedding of `PhaseExtractor.extract_phase`, returning
(cleaned value, phase marker).  Null input returns `(none, none)`. -/
def extractPhase (v : Option String) : Option String × Option String :=
  match v with
  | none => (none, none)
  | some s =>
    let l := pyStrip s.data
    if decide (l.length ≤ 5) && quickPhaseRe l then (none, some ⟨l⟩)
    else
      match p1Find l with
      | some (i, tok) => phaseResult (l.take i) tok
      | none =>
        match p2Find l with
        | some (i, tok) => phaseResult (l.take i) tok
        | none =>
          match p3Find l with
          | some (i, tok) => phaseResult (l.take i) tok
          | none =>
            if l ∈ noMatchSentinels then (none, none)
            else (some ⟨l⟩, none)

/-! ### Phase grammar, modelled from the spec

Used to state claims that quantify over "tokens of the phase grammar"
(spec §3, PhaseLabel): single letters A-F, Roman numerals I-VI, or
"+"-joined combinations, optionally suffixed with a decimal sub-label. -/

/-- Roman numerals I-VI, as character lists. -/
def romanNumerals : List (List Char) :=
  [['I'], ['I', 'I'], ['I', 'I', 'I'], ['I', 'V'], ['V'], ['V', 'I']]

/-- Modelled from the spec: an atom of the phase grammar is a single letter
A-F or a Roman numeral I-VI. -/
def specAtom (l : List Char) : Bool :=
  (match l with | [c] => isAF c | _ => false) || decide (l ∈ romanNumerals)

/-- Modelled from the spec: a grammar unit is an atom optionally suffixed
with a decimal sub-label (e.g. "D0.5"). -/
def specUnit (l : List Char) : Bool :=
  (List.range (l.length + 1)).any fun i =>
    specAtom (l.take i) && (l.drop i = [] || digitDotShape (l.drop i))

/-- Modelled from the spec: a phase-grammar token is one unit or a
"+"-joined combination of units. -/
def specPhaseToken (s : String) : Bool :=
  (s.data.splitOn '+').all specUnit

/-! ### Token sets used to state the phase-splitter claims -/

/-- The six letters A-F. -/
def afLetters : List Char := ['A', 'B', 'C', 'D', 'E', 'F']

/-- Tokens accepted by the quick check of `extract_phase`:
single letters A-F, Roman numerals I-III, and "+"-joined pairs of
letters A-F. -/
def quickPhaseTokens : List String :=
  (afLetters.map fun c => ⟨[c]⟩) ++ ["I", "II", "III"] ++
    ((afLetters.product afLetters).map fun p => ⟨[p.1, '+', p.2]⟩)

/-! ### Exact model of Python float values

Python floats are modelled by exact unreduced fractions.  All float
comparisons the claims depend on involve decimal literals, where float
arithmetic is exact, so the rational model is faithful.  A zero
denominator encodes IEEE NaN (it arises only from `0/0`, e.g. the null
fraction of an empty table); every comparison against NaN is false. -/

structure Frac where
  num : Int
  den : Nat
deriving Repr, DecidableEq

/-- Embed a natural number. -/
def Frac.ofNat (n : Nat) : Frac := ⟨n, 1⟩

/-- Exact sum (denominators multiply; no normalisation). -/
def Frac.add (x y : Frac) : Frac :=
  ⟨x.num * y.den + y.num * x.den, x.den * y.den⟩

/-- Exact difference. -/
def Frac.sub (x y : Frac) : Frac :=
  ⟨x.num * y.den - y.num * x.den, x.den * y.den⟩

/-- Exact product. -/
def Frac.mul (x y : Frac) : Frac :=
  ⟨x.num * y.num, x.den * y.den⟩

/-- Division by a natural number (Python `x / n`). -/
def Frac.divNat (x : Frac) (n : Nat) : Frac :=
  ⟨x.num, x.den * n⟩

/-- Absolute value. -/
def Frac.abs (x : Frac) : Frac := ⟨|x.num|, x.den⟩

/-- Strict less-than; false when either side is NaN (zero denominator),
matching IEEE comparison semantics. -/
def Frac.lt (x y : Frac) : Bool :=
  x.den ≠ 0 && y.den ≠ 0 && decide (x.num * (y.den : Int) < y.num * (x.den : Int))

/-- Non-strict comparison; false when either side is NaN. -/
def Frac.le (x y : Frac) : Bool :=
  x.den ≠ 0 && y.den ≠ 0 && decide (x.num * (y.den : Int) ≤ y.num * (x.den : Int))

/-- Value equality of fractions (cross multiplication); false for NaN,
matching IEEE (`nan != nan`). -/
def Frac.eqv (x y : Frac) : Bool :=
  x.den ≠ 0 && y.den ≠ 0 && decide (x.num * (y.den : Int) = y.num * (x.den : Int))

/-- Numeric value of a digit string. -/
def digitsVal (l : List Char) : Nat :=
  l.foldl (fun a c => 10 * a + (c.toNat - 48)) 0

/-- Parser for Python `float(str)` on stripped characters: optional sign,
decimal mantissa (`\d+`, `\d+.\d*` or `.\d+`), optional exponent.
(`inf`/`nan` literals and digit-separator underscores are not modelled;
they do not occur in this data.) -/
def pyFloatChars (l : List Char) : Option Frac :=
  let sgnSplit : Int × List Char :=
    match l with
    | '+' :: r => (1, r)
    | '-' :: r => (-1, r)
    | _ => (1, l)
  let sgn := sgnSplit.1
  let l1 := sgnSplit.2
  let ip := l1.takeWhile isDigitC
  let r1 := l1.dropWhile isDigitC
  let fpSplit : List Char × List Char :=
    match r1 with
    | '.' :: rr => (rr.takeWhile isDigitC, rr.dropWhile isDigitC)
    | _ => ([], r1)
  let fp := fpSplit.1
  let r2 := fpSplit.2
  if ip.isEmpty && fp.isEmpty then none
  else
    let mant : Frac := ⟨sgn * (digitsVal (ip ++ fp) : Int), 10 ^ fp.length⟩
    match r2 with
    | [] => some mant
    | e :: r3 =>
      if e = 'e' || e = 'E' then
        let expSplit : Bool × List Char :=
          match r3 with
          | '+' :: rr => (false, rr)
          | '-' :: rr => (true, rr)
          | _ => (false, r3)
        let ed := expSplit.2.takeWhile isDigitC
        let r5 := expSplit.2.dropWhile isDigitC
        if ed.isEmpty || !r5.isEmpty then none
        else
          let k := digitsVal ed
          some (if expSplit.1 then ⟨mant.num, mant.den * 10 ^ k⟩
            else ⟨mant.num * (10 ^ k : Nat), mant.den⟩)
      else none

/-- Python `float(str(v))`: strip, then parse. -/
def pyFloat (s : String) : Option Frac :=
  pyFloatChars (pyStrip s.data)

/-- Python `str.lower()` (ASCII). -/
def pyLower (l : List Char) : List Char :=
  l.map Char.toLower

/-! ### `MultiMethodExtractor` (scripts/multi_method_extractor.py)

A DataFrame produced by an extraction method is modelled as its rows of
cells, each cell the string rendering of its content (`none` = NaN);
`str(v)` is applied by the code at every comparison point, so the string
rendering is the observable content. -/

/-- Grid of nullable text cells (one extraction of one table). -/
abbrev Grid := List (List (Option String))

/-- Row count (`df.shape[0]`). -/
def gridRows (g : Grid) : Nat := g.length

/-- Column count (`df.shape[1]`; DataFrames are rectangular, so the first
row's width is the table's width). -/
def gridCols (g : Grid) : Nat :=
  (g.head?.map List.length).getD 0

/-- Cell access `df.iloc[i, j]` (`none` for NaN). -/
def cellAt (g : Grid) (i j : Nat) : Option String :=
  (((g.get? i).getD []).get? j).join

/-- Embedding of `_values_match`: both NaN, or both parse as floats within
absolute tolerance 1e-6, or equal as case-insensitive stripped strings. -/
def valuesMatch (a b : Option String) : Bool :=
  match a, b with
  | none, none => true
  | some x, some y =>
    match pyFloat x, pyFloat y with
    | some qa, some qb => Frac.lt (Frac.abs (Frac.sub qa qb)) ⟨1, 1000000⟩
    | _, _ => decide (pyLower (pyStrip x.data) = pyLower (pyStrip y.data))
  | _, _ => false

/-- Discrepancy record (the string-similarity score attached to value
mismatches is presentation-only and not modelled; no claim mentions it). -/
structure Discrep where
  kind : String
  row : Nat := 0
  col : Nat := 0
  methodA : String := ""
  methodB : String := ""
  valueA : Option String := none
  valueB : Option String := none
  shapeA : Nat × Nat := (0, 0)
  shapeB : Nat × Nat := (0, 0)
deriving Repr, DecidableEq

/-- Embedding of `_compare_two_dataframes`: shape mismatch scores 0.5 with
one discrepancy; otherwise cell-by-cell agreement over all positions. -/
def compareTwo (ga gb : Grid) (na nb : String) : Frac × List Discrep :=
  if (gridRows ga, gridCols ga) ≠ (gridRows gb, gridCols gb) then
    (⟨1, 2⟩, [{ kind := "shape_mismatch", methodA := na, methodB := nb,
                shapeA := (gridRows ga, gridCols ga),
                shapeB := (gridRows gb, gridCols gb) }])
  else
    let rows := gridRows ga
    let cols := gridCols ga
    let cells := (List.range rows).flatMap (fun i => (List.range cols).map (fun j => (i, j)))
    let matching := cells.countP (fun p => valuesMatch (cellAt ga p.1 p.2) (cellAt gb p.1 p.2))
    let discreps := cells.filterMap (fun p =>
      if valuesMatch (cellAt ga p.1 p.2) (cellAt gb p.1 p.2) then none
      else some { kind := "value_mismatch", row := p.1, col := p.2,
                  methodA := na, methodB := nb,
                  valueA := cellAt ga p.1 p.2, valueB := cellAt gb p.1 p.2 })
    let total := rows * cols
    (if 0 < total then ⟨matching, total⟩ else ⟨0, 1⟩, discreps)

/-- Ordered pairs (i, j) with i < j, in the double-loop order of
`compare_extractions`. -/
def allPairs {α : Type} : List α → List (α × α)
  | [] => []
  | x :: rest => (rest.map (fun y => (x, y))) ++ allPairs rest

/-- Consensus cell content: `_most_common_value` converts the winning
string back to a float when parseable. -/
inductive ConsensusVal where
  | num (q : Frac)
  | txt (s : String)
deriving Repr, DecidableEq

/-- A consensus grid built by `_build_consensus`. -/
abbrev CGrid := List (List (Option ConsensusVal))

/-- The consensus entry of the result dictionary: either one of the input
DataFrames passed through unchanged (empty and N=1 branches) or a newly
assembled consensus DataFrame. -/
inductive ConsensusFrame where
  | raw (g : Grid)
  | built (g : CGrid)
deriving Repr, DecidableEq

/-- Result dictionary of `compare_extractions`; `none` in the two optional
fields models an absent key (the empty branch has no discrepancy or
review entry, the N=1 branch no review entry). -/
structure CompareResult where
  consensus : ConsensusFrame
  agreement : Frac
  methods : List String
  discrepancies : Option (List Discrep)
  needsReview : Option Bool
deriving Repr, DecidableEq

/-- Distinct values in first-occurrence order: the key order of a Python
`Counter` built by insertion (dicts preserve first-insertion order).
Fuel-driven: each step removes at least the head, so the input length is
enough fuel. -/
def counterKeysGo : Nat → List String → List String
  | _, [] => []
  | 0, _ :: _ => []
  | fuel + 1, x :: xs => x :: counterKeysGo fuel (xs.filter (fun y => y ≠ x))

def counterKeys (l : List String) : List String :=
  counterKeysGo l.length l

/-- Fold of `Counter.most_common(1)`: keep the current best key unless a
later key has a strictly greater count — the stable sort of
`most_common` keeps the earlier-inserted key on ties. -/
def pickBest (l : List String) (k : String) (ks : List String) : String :=
  ks.foldl (fun best k2 => if l.count k2 > l.count best then k2 else best) k

/-- The most common element of a list (first-seen wins ties); `none` for
an empty list (`_most_common_value` returns NaN there). -/
def mostCommonKey (l : List String) : Option String :=
  match counterKeys l with
  | [] => none
  | k :: ks => some (pickBest l k ks)

/-- Conversion applied by `_most_common_value` to the winning string. -/
def floatConvert (m : String) : ConsensusVal :=
  match pyFloat m with
  | some q => ConsensusVal.num q
  | none => ConsensusVal.txt m

/-- Embedding of `_most_common_value`: strip the candidates, majority-vote,
convert the winner back to a float when parseable. -/
def mostCommonValue (values : List String) : Option ConsensusVal :=
  let strs := values.map (fun v => String.mk (pyStrip v.data))
  (mostCommonKey strs).map floatConvert

/-- Maximum row count over the input grids. -/
def maxRows (gs : List Grid) : Nat :=
  (gs.map gridRows).foldl max 0

/-- Maximum column count over the input grids. -/
def maxCols (gs : List Grid) : Nat :=
  (gs.map gridCols).foldl max 0

/-- Non-null values at position (i, j) over the sources covering it, in
method-insertion order. -/
def collectCell (gs : List Grid) (i j : Nat) : List String :=
  gs.filterMap (fun g =>
    if i < gridRows g ∧ j < gridCols g then cellAt g i j else none)

/-- Embedding of `_build_consensus`: a max-rows × max-cols grid whose every
position holds the majority vote over the sources covering it (`none`
when no source has a non-null value there). -/
def buildConsensus (gs : List Grid) : CGrid :=
  if gs.isEmpty then []
  else
    (List.range (maxRows gs)).map (fun i =>
      (List.range (maxCols gs)).map (fun j =>
        mostCommonValue (collectCell gs i j)))

/-- Total cell access into a consensus grid. -/
def cgCell (g : CGrid) (i j : Nat) : Option ConsensusVal :=
  (g.getD i []).getD j none

/-- Embedding of `compare_extractions` over the insertion-ordered method
dictionary. -/
def compareExtractions (extractions : List (String × Grid)) : CompareResult :=
  match extractions with
  | [] => ⟨ConsensusFrame.built [], ⟨0, 1⟩, [], none, none⟩
  | [(name, g)] => ⟨ConsensusFrame.raw g, Frac.ofNat 1, [name], some [], none⟩
  | _ =>
    let pairs := allPairs extractions
    let results := pairs.map (fun p => compareTwo p.1.2 p.2.2 p.1.1 p.2.1)
    let agreements := results.map Prod.fst
    let discreps := (results.map Prod.snd).flatten
    let avg : Frac :=
      if agreements.isEmpty then ⟨0, 1⟩
      else Frac.divNat (agreements.foldl Frac.add ⟨0, 1⟩) agreements.length
    ⟨ConsensusFrame.built (buildConsensus (extractions.map Prod.snd)), avg,
      extractions.map Prod.fst, some discreps,
      some (Frac.lt avg ⟨95, 100⟩ || decide (discreps.length > 5))⟩

/-! ### Majority-vote characterisation (for claim C10)

The specification-level reading of "most frequent value, first-seen wins
ties" is: the chosen element has maximal count among the candidates, and
its first occurrence precedes that of every other candidate with the
same count.  `firstIdx` gives the first-occurrence index. -/

/-- Index of the first occurrence of `s` (length of the list when absent). -/
def firstIdx (s : String) : List String → Nat
  | [] => 0
  | x :: xs => if x = s then 0 else firstIdx s xs + 1

/-! ### `ScientificValidator` (scripts/quality_validator.py)

A table reaching the validator is a CSV-loaded DataFrame: a list of named
columns, each of numeric or object dtype.  By the CSV-loading convention,
numeric-dtype columns hold floats and NaN, object-dtype columns hold
strings and NaN.  A flag is modelled by its `type` tag; the message and
recommendation strings attached to a flag are presentation-only and no
claim mentions them.  Fractional thresholds (0.1, 0.2, 0.3, 0.5) are
modelled exactly; Python evaluates them in binary floating point, which
can differ only on boundary inputs whose count equals the threshold times
the size to within one float ulp — no claim depends on such a boundary. -/

/-- A cell of a validated table. -/
inductive PCell where
  | null
  | num (q : Frac)
  | str (s : String)
deriving Repr, DecidableEq

/-- A named, dtyped column. -/
structure PCol where
  name : String
  numericDtype : Bool
  cells : List PCell
deriving Repr, DecidableEq

/-- A CSV-loaded DataFrame; `nrows` is the index length (kept separately so
that zero-column frames still have a row count, as in pandas). -/
structure PFrame where
  cols : List PCol
  nrows : Nat
deriving Repr, DecidableEq

/-- Metadata dictionary passed to `validate_table` (only the
`header_confidence` key is read; `none` models an absent key, defaulted
to 0 by `metadata.get`). -/
structure TableMeta where
  headerConfidence : Option Frac
deriving Repr, DecidableEq

/-- Severity-tiered flag lists (each flag is its `type` tag). -/
structure Flags where
  critical : List String
  warning : List String
  info : List String
deriving Repr, DecidableEq

def Flags.append (a b : Flags) : Flags :=
  ⟨a.critical ++ b.critical, a.warning ++ b.warning, a.info ++ b.info⟩

/-- `pd.to_numeric(..., errors='coerce')` on one cell. -/
def toNumericCell : PCell → Option Frac
  | PCell.null => none
  | PCell.num q => some q
  | PCell.str s => pyFloat s

/-- `dropna()` on a numeric-dtype column. -/
def numDataCell : PCell → Option Frac
  | PCell.num q => some q
  | _ => none

/-- `dropna().astype(str)` on an object-dtype column (object columns hold
strings and NaN under the CSV-loading convention). -/
def objStrCell : PCell → Option String
  | PCell.str s => some s
  | _ => none

/-- Sum of fractions. -/
def fracSum (l : List Frac) : Frac :=
  l.foldl Frac.add ⟨0, 1⟩

/-- Column names counted as generic:
`str(col).startswith(('Column_', 'Unnamed', '0', '1', '2'))`. -/
def genericName (s : String) : Bool :=
  ["Column_", "Unnamed", "0", "1", "2"].any (fun p => p.data.isPrefixOf s.data)

/-- Match of `\(.*\)` (a parenthesis pair on the line). -/
def hasParenPair : List Char → Bool
  | [] => false
  | c :: rest => (c = '(' && rest.contains ')') || hasParenPair rest

/-- Match of the unit-annotation regex `\(.*\)|%|°` against a header. -/
def hasUnitMark (l : List Char) : Bool :=
  hasParenPair l || l.contains '%' || l.contains '°'

/-- Embedding of `_check_headers`. -/
def checkHeaders (df : PFrame) (md : TableMeta) : Flags :=
  let hcFlag := if Frac.lt (md.headerConfidence.getD ⟨0, 1⟩) ⟨7, 10⟩
    then ["low_header_confidence"] else []
  let generic := df.cols.countP (fun c => genericName c.name)
  let gFlag := if 0 < generic then ["generic_headers"] else []
  let numericNames := (df.cols.filter (fun c => c.numericDtype)).map (fun c => c.name)
  let without := numericNames.filter (fun s => !hasUnitMark s.data)
  let uFlag := if numericNames.length < 2 * without.length then ["missing_units"] else []
  ⟨hcFlag, gFlag, uFlag⟩

/-- Embedding of `_check_data_completeness`.  The null fraction of an empty
table is `0/0`, i.e. NaN, whose comparisons are all false (numpy emits a
warning, not an exception). -/
def checkCompleteness (df : PFrame) : Flags :=
  let nullCount : Nat := (df.cols.map (fun c => c.cells.countP (fun x => x = PCell.null))).foldl (· + ·) 0
  let nullPct : Frac := ⟨(nullCount : Int), df.nrows * df.cols.length⟩
  let compCrit := if Frac.lt ⟨1, 2⟩ nullPct then ["high_null_rate"] else []
  let compWarn1 := if !Frac.lt ⟨1, 2⟩ nullPct && Frac.lt ⟨3, 10⟩ nullPct
    then ["moderate_null_rate"] else []
  let emptyCols := df.cols.filter (fun c => c.cells.all (fun x => x = PCell.null))
  let compWarn2 := if !emptyCols.isEmpty then ["empty_columns"] else []
  let compInfo := if df.nrows < 3 then ["small_table"] else []
  ⟨compCrit, compWarn1 ++ compWarn2, compInfo⟩

/-- Embedding of `_is_numeric_like`: replace commas by periods, drop
spaces, strip, and try `float`. -/
def isNumericLike (s : String) : Bool :=
  (pyFloatChars (pyStrip
    ((s.data.map (fun c => if c = ',' then '.' else c)).filter (fun c => c ≠ ' ')))).isSome

/-- Match of `[Il]{2,}`: two adjacent characters from {I, l}. -/
def hasDoubleIl : List Char → Bool
  | a :: b :: rest =>
    ((a = 'I' || a = 'l') && (b = 'I' || b = 'l')) || hasDoubleIl (b :: rest)
  | _ => false

/-- Match of `O{2,}`: two adjacent capital O. -/
def hasDoubleO : List Char → Bool
  | a :: b :: rest => (a = 'O' && b = 'O') || hasDoubleO (b :: rest)
  | _ => false

/-- Match of `[,\s]\d{1,2}(?!\d)`: a comma or whitespace followed by a
maximal digit run of length one or two. -/
def hasCommaDec : List Char → Bool
  | c :: rest =>
    (if c = ',' || pyIsSpace c then
      let run := (rest.takeWhile isDigitC).length
      run = 1 || run = 2
    else false) || hasCommaDec rest
  | [] => false

/-- Embedding of `_check_numeric_validity` for one object-dtype column:
(critical tags, warning tags). -/
def colNumValidity (c : PCol) : List String × List String :=
  let sample := (c.cells.filterMap objStrCell).take 20
  let numc := sample.countP (fun s => isNumericLike s)
  let textc := sample.length - numc
  let crit := if 0 < numc && 0 < textc && 5 * textc < numc then ["mixed_numeric_text"] else []
  let warn := if sample.any (fun s => hasDoubleIl s.data || hasDoubleO s.data || hasCommaDec s.data)
    then ["ocr_artifacts"] else []
  (crit, warn)

/-- Embedding of `_check_numeric_validity` (object-dtype columns only). -/
def checkNumericValidity (df : PFrame) : Flags :=
  let per := (df.cols.filter (fun c => !c.numericDtype)).map colNumValidity
  ⟨(per.map Prod.fst).flatten, (per.map Prod.snd).flatten, []⟩

/-- Containment of one character list in another. -/
def isSubL (pat : List Char) : List Char → Bool
  | [] => pat.isEmpty
  | c :: rest => pat.isPrefixOf (c :: rest) || isSubL pat rest

/-- Substring test on lower-cased column names. -/
def nameHas (key : String) (c : PCol) : Bool :=
  isSubL key.data (pyLower c.name.data)

/-- Embedding of the per-column part of `_check_scientific_plausibility`:
(critical tags, warning tags) in source order. -/
def colSciFlags (c : PCol) : List String × List String :=
  let vals := c.cells.filterMap toNumericCell
  let tempCrit := if (["temp", "°c", "°k", "celsius", "kelvin"].any (fun k => nameHas k c)) &&
      vals.any (fun q => Frac.lt q ⟨-27315, 100⟩) then ["impossible_temperature"] else []
  let tempWarn := if ["temp", "°c", "°k", "celsius", "kelvin"].any (fun k => nameHas k c) then
      (if vals.any (fun q => Frac.lt q ⟨-100, 1⟩) then ["unusual_temperature"] else []) ++
      (if vals.any (fun q => Frac.lt ⟨500, 1⟩ q) then ["unusual_temperature"] else [])
    else []
  let massCrit := if (["mass%", "wt%", "weight%"].any (fun k => nameHas k c)) &&
      (vals.any (fun q => Frac.lt q ⟨0, 1⟩) || vals.any (fun q => Frac.lt ⟨100, 1⟩ q))
    then ["impossible_percentage"] else []
  let phCrit := if (nameHas "ph" c || nameHas "p.h." c) &&
      (vals.any (fun q => Frac.lt q ⟨0, 1⟩) || vals.any (fun q => Frac.lt ⟨14, 1⟩ q))
    then ["impossible_ph"] else []
  let molCrit := if (nameHas "mol/kg" c || nameHas "molal" c) &&
      vals.any (fun q => Frac.lt q ⟨0, 1⟩) then ["negative_molality"] else []
  (tempCrit ++ massCrit ++ phCrit ++ molCrit, tempWarn)

/-- Embedding of `_check_scientific_plausibility` (the `chemical_system`
argument is unused by the source as well). -/
def checkSci (df : PFrame) (_chemicalSystem : String) : Flags :=
  let per := df.cols.map colSciFlags
  let massCols := df.cols.filter (fun c => nameHas "mass%" c || nameHas "wt%" c)
  let rowSum := fun (r : Nat) =>
    fracSum (massCols.map (fun c => (toNumericCell (c.cells.getD r PCell.null)).getD ⟨0, 1⟩))
  let outside := (List.range df.nrows).countP (fun r =>
    Frac.lt (rowSum r) ⟨95, 1⟩ || Frac.lt ⟨105, 1⟩ (rowSum r))
  let massWarn := if 2 ≤ massCols.length && 0 < df.nrows && 3 * df.nrows < 10 * outside
    then ["mass_balance_error"] else []
  ⟨(per.map Prod.fst).flatten, (per.map Prod.snd).flatten ++ massWarn, []⟩

/-- Row `r` of a frame, as compared by `df.duplicated()`. -/
def rowOf (df : PFrame) (r : Nat) : List PCell :=
  df.cols.map (fun c => c.cells.getD r PCell.null)

/-- Count of rows equal to an earlier row (`df.duplicated().sum()`,
keep='first'). -/
def dupCount (df : PFrame) : Nat :=
  (List.range df.nrows).countP (fun r =>
    (List.range r).any (fun r2 => rowOf df r2 = rowOf df r))

/-- Embedding of `_check_extraction_artifacts`. -/
def checkArtifacts (df : PFrame) : Flags :=
  let d := dupCount df
  let dupCrit := if df.nrows < 10 * d then ["excessive_duplicates"] else []
  let dupWarn := if !(df.nrows < 10 * d) && 2 < d then ["some_duplicates"] else []
  let ncols := df.cols.length
  let colWarn := if 20 < ncols then ["many_columns"] else []
  let colCrit := if !(20 < ncols) && ncols < 2 then ["too_few_columns"] else []
  let objCols := df.cols.filter (fun c => !c.numericDtype)
  let wsInfo := (objCols.map (fun c =>
    let sample := (c.cells.filterMap objStrCell).take 20
    if sample.any (fun s => (pyStrip s.data).length ≠ s.data.length)
    then ["extra_whitespace"] else [])).flatten
  let naWarn := (objCols.map (fun c =>
    let sample := (c.cells.filterMap objStrCell).take 20
    if sample.length < 10 * (sample.filter (fun s => !s.data.all (fun ch => ch.toNat < 128))).length
    then ["non_ascii_characters"] else [])).flatten
  ⟨dupCrit ++ colCrit, dupWarn ++ colWarn ++ naWarn, wsInfo⟩

/-- Embedding of `_check_statistical_anomalies` for one numeric column.
The standard-deviation test `std < mean * 0.01 and mean != 0` is encoded
square-free as `0 < mean and variance < (mean/100)^2`, which is equivalent
since both sides of the original comparison are then non-negative
(the sample variance uses `ddof=1`, as pandas does). -/
def colStatFlags (c : PCol) : List String × List String :=
  let data := c.cells.filterMap numDataCell
  if data.length < 3 then ([], [])
  else
    let constWarn := match data with
      | q :: rest => if rest.all (fun x => Frac.eqv q x) then ["constant_column"] else []
      | [] => []
    let mean := Frac.divNat (fracSum data) data.length
    let var := Frac.divNat
      (fracSum (data.map (fun x => Frac.mul (Frac.sub x mean) (Frac.sub x mean))))
      (data.length - 1)
    let lowVar := if Frac.lt ⟨0, 1⟩ mean && Frac.lt var (Frac.divNat (Frac.mul mean mean) 10000)
      then ["low_variance"] else []
    (constWarn, lowVar)

/-- Embedding of `_check_statistical_anomalies` (numeric-dtype columns). -/
def checkStats (df : PFrame) : Flags :=
  let per := (df.cols.filter (fun c => c.numericDtype)).map colStatFlags
  ⟨[], (per.map Prod.fst).flatten, (per.map Prod.snd).flatten⟩

/-- Embedding of `_calculate_validation_score`: start at 100, subtract 15
per critical, 5 per warning, 1 per info, clamp to [0, 100].  All
quantities are integral, so float arithmetic is exact here. -/
def validationScore (c w i : Nat) : Int :=
  let score : Int := 100 - 15 * c - 5 * w - 1 * i
  max 0 (min 100 score)

/-- Priority label of `_get_priority_level`. -/
def priorityOf (f : Flags) : String :=
  if 0 < f.critical.length then "CRITICAL - Must review before publication"
  else if 2 < f.warning.length then "HIGH - Should review"
  else if 0 < f.warning.length then "MEDIUM - Recommended review"
  else if 0 < f.info.length then "LOW - Optional review"
  else "PASSED - No issues detected"

/-- Result dictionary of `validate_table`. -/
structure ValidationResult where
  score : Int
  flags : Flags
  needsReview : Bool
  priority : String
  estimatedAccuracy : Int
deriving Repr, DecidableEq

/-- Embedding of `ScientificValidator.validate_table`: run the six checks
in order, accumulate flags, and score. -/
def validateTable (df : PFrame) (md : TableMeta) (chemicalSystem : String) : ValidationResult :=
  let f := (((((checkHeaders df md).append (checkCompleteness df)).append
    (checkNumericValidity df)).append (checkSci df chemicalSystem)).append
    (checkArtifacts df)).append (checkStats df)
  let score := validationScore f.critical.length f.warning.length f.info.length
  ⟨score, f, decide (0 < f.critical.length) || decide (2 < f.warning.length), priorityOf f, score⟩

/-! ### Decimal rendering of Python `str(int)`

Used by the f-strings of `make_columns_unique` and the header detector. -/

/-- Little-endian decimal digits of `n` (fuel-driven: `n` itself bounds the
digit count). -/
def natDigitsGo : Nat → Nat → List Char
  | _, 0 => []
  | 0, _ + 1 => []
  | fuel + 1, n + 1 => Nat.digitChar ((n + 1) % 10) :: natDigitsGo fuel ((n + 1) / 10)

/-- Python `str(n)` for a natural number. -/
def pyNatChars (n : Nat) : List Char :=
  if n = 0 then ['0'] else (natDigitsGo n n).reverse

def pyNatStr (n : Nat) : String := ⟨pyNatChars n⟩

/-- Little-endian value of a digit list (inverse of `natDigitsGo`). -/
def digitsValLE : List Char → Nat
  | [] => 0
  | c :: r => (c.toNat - 48) + 10 * digitsValLE r

/-! ### `utils.make_columns_unique` (scripts/utils.py, lines 222-243) -/

/-- The f-string `f"{col}_{count}"`. -/
def renderSuffixed (col : String) (k : Nat) : String :=
  col ++ "_" ++ pyNatStr k

/-- Lookup in the `col_counts` dictionary. -/
def lookupC (m : List (String × Nat)) (s : String) : Option Nat :=
  (m.find? (fun e => e.1 = s)).map (fun e => e.2)

/-- Update of the `col_counts` dictionary. -/
def setC (m : List (String × Nat)) (s : String) (v : Nat) : List (String × Nat) :=
  match m with
  | [] => [(s, v)]
  | e :: rest => if e.1 = s then (s, v) :: rest else e :: setC rest s v

/-- Loop body of `make_columns_unique`: a first occurrence is kept and its
count set to 0; a repeat increments the count and is suffixed. -/
def mcuGo : List (String × Nat) → List String → List String
  | _, [] => []
  | counts, col :: rest =>
    match lookupC counts col with
    | some k => renderSuffixed col (k + 1) :: mcuGo (setC counts col (k + 1)) rest
    | none => col :: mcuGo (setC counts col 0) rest

/-- Embedding of `utils.make_columns_unique`. -/
def makeColumnsUnique (columns : List String) : List String :=
  mcuGo [] columns

/-! ### `HeaderDetector` (scripts/header_detector.py)

A table reaching the detector is a CSV-loaded frame of text cells,
modelled column-major.  Column labels may be NaN (pandas permits this
after first-row promotion), hence `Option String` names; `str(col)`
renders a NaN label as "nan". -/

/-- A text column with a (possibly NaN) label. -/
structure SCol where
  name : Option String
  cells : List (Option String)
deriving Repr, DecidableEq

/-- A text DataFrame, column-major. -/
structure SFrame where
  cols : List SCol
deriving Repr, DecidableEq

/-- `len(df)` (rectangular frames: the first column's height). -/
def nrowsS (f : SFrame) : Nat :=
  (f.cols.head?.map (fun c => c.cells.length)).getD 0

/-- `str(col)` on a column label. -/
def colNameStr : Option String → String
  | some s => s
  | none => "nan"

/-- The flattened `column_type_keywords` table (only membership is used, so
order is irrelevant). -/
def keywordList : List String :=
  ["temp", "temperature", "°c", "°k", "t", "celsius", "kelvin",
   "mass%", "wt%", "weight%", "w", "mass", "wt",
   "mol/kg", "molality", "m", "mol kg",
   "mol%", "mole%", "x", "mole fraction", "mol frac",
   "ph", "p.h.",
   "density", "ρ", "rho", "g/cm³", "g/ml",
   "pressure", "p", "bar", "atm", "pa", "mpa",
   "phase", "solid", "phases", "equilibrium",
   "composition", "comp", "conc", "concentration"]

/-- Full-string match of `^-?\d+\.?\d*$`. -/
def isPureNumber (l : List Char) : Bool :=
  match l with
  | '-' :: r => digitDotShape r
  | _ => digitDotShape l

/-- Python `min(x, y)` on two fraction values. -/
def fracMin (x y : Frac) : Frac :=
  if Frac.lt y x then y else x

/-- Header-likeness score of one non-null first-row value: +1 when it is
short alphabetic text that is not a pure number, +0.5 when it contains a
known unit/keyword substring. -/
def headerCellScore (v : String) : Frac :=
  let vs := pyLower (pyStrip v.data)
  Frac.add
    (if vs.any Char.isAlpha && decide (vs.length < 30) && !isPureNumber vs
      then ⟨1, 1⟩ else ⟨0, 1⟩)
    (if keywordList.any (fun k => isSubL k.data vs) then ⟨1, 2⟩ else ⟨0, 1⟩)

/-- Embedding of `_try_first_row_as_header`: score row 0, and on
confidence > 0.7 promote it to the column labels and drop it from the
body. -/
def tryFirstRowHeader (df : SFrame) : SFrame × Frac :=
  if df.cols.isEmpty || nrowsS df < 2 then (df, ⟨0, 1⟩)
  else
    let firstRow := df.cols.map (fun c => c.cells.getD 0 none)
    let nonNull := firstRow.filterMap id
    if nonNull.length = 0 then (df, ⟨0, 1⟩)
    else
      let confidence := fracMin (Frac.divNat (fracSum (nonNull.map headerCellScore)) nonNull.length) ⟨1, 1⟩
      if Frac.lt ⟨7, 10⟩ confidence then
        (⟨df.cols.map (fun c => ⟨c.cells.getD 0 none, c.cells.tail⟩)⟩, confidence)
      else (df, confidence)

/-- Upstream column-type metadata: name, detected type, confidence. -/
abbrev CTypes := List (String × String × Frac)

/-- Embedding of `_type_to_header`. -/
def typeToHeader (t : String) (idx : Nat) : String :=
  if t = "temperature" then "Temperature"
  else if t = "mass_percent" then "Mass %"
  else if t = "molality" then "Molality (mol/kg)"
  else if t = "mole_fraction" then "Mole Fraction"
  else if t = "ph" then "pH"
  else if t = "density" then "Density (g/cm³)"
  else if t = "pressure" then "Pressure"
  else if t = "phase" then "Phase"
  else if t = "composition" then "Composition"
  else if t = "numeric" then "Data_" ++ pyNatStr idx
  else if t = "text" then "Text_" ++ pyNatStr idx
  else "Column_" ++ pyNatStr idx

/-- Embedding of `_generate_headers_from_types`: per column, a typed
display name with the metadata confidence, or a generic name with
confidence 0.3; overall confidence is the average. -/
def genHeadersFromTypes (df : SFrame) (ct : CTypes) : SFrame × Frac :=
  let per := df.cols.enum.map (fun p =>
    match ct.find? (fun e => e.1 = colNameStr p.2.name) with
    | some e => (typeToHeader e.2.1 p.1, e.2.2)
    | none => ("Column_" ++ pyNatStr p.1, (⟨3, 10⟩ : Frac)))
  let avg := if df.cols.length = 0 then ⟨0, 1⟩
    else Frac.divNat (fracSum (per.map Prod.snd)) df.cols.length
  (⟨(df.cols.zip per).map (fun q => ⟨some q.2.1, q.1.cells⟩)⟩, avg)

/-- Search for `\d+\.?\d*\s*°` (a number followed by a degree sign). -/
def degreeSearch : List Char → Bool
  | [] => false
  | c :: rest =>
    (if isDigitC c then
      let r1 := (c :: rest).dropWhile isDigitC
      let r2 := match r1 with
        | '.' :: rr => rr.dropWhile isDigitC
        | _ => r1
      (r2.dropWhile pyIsSpace).head? = some '°'
    else false) || degreeSearch rest

/-- `_is_temperature_range`: strip degree markers, parse, test [-100, 500]. -/
def isTemperatureRange (v : String) : Bool :=
  match pyFloatChars (pyStrip (replaceAll ['°'] [] (replaceAll ['°', 'C'] [] v.data))) with
  | some q => Frac.le ⟨-100, 1⟩ q && Frac.le q ⟨500, 1⟩
  | none => false

/-- `_is_percentage_range`: strip percent signs, parse, test [0, 100]. -/
def isPercentageRange (v : String) : Bool :=
  match pyFloatChars (pyStrip (replaceAll ['%'] [] v.data)) with
  | some q => Frac.le ⟨0, 1⟩ q && Frac.le q ⟨100, 1⟩
  | none => false

/-- `_is_ph_range`: parse and test [0, 14]. -/
def isPhRange (v : String) : Bool :=
  match pyFloatChars (pyStrip v.data) with
  | some q => Frac.le ⟨0, 1⟩ q && Frac.le q ⟨14, 1⟩
  | none => false

/-- Base alternatives of `^([A-F]|I{1,4}|IV|V|VI)`. -/
def phaseBase (l : List Char) : Bool :=
  match l with
  | [c] => isAF c || c = 'I' || c = 'V'
  | [a, b] => (a = 'I' && b = 'I') || (a = 'I' && b = 'V') || (a = 'V' && b = 'I')
  | [a, b, c] => a = 'I' && b = 'I' && c = 'I'
  | [a, b, c, d] => a = 'I' && b = 'I' && c = 'I' && d = 'I'
  | _ => false

/-- `_is_phase_label`: full match of `^([A-F]|I{1,4}|IV|V|VI)(\+[A-F])?$`
against the stripped value. -/
def isPhaseLabel (v : String) : Bool :=
  let l := pyStrip v.data
  phaseBase l ||
    (match l.reverse with
     | c :: '+' :: rr => isAF c && phaseBase rr.reverse
     | _ => false)

/-- `_is_small_decimal`: parse and test [0, 10). -/
def isSmallDecimal (v : String) : Bool :=
  match pyFloatChars (pyStrip v.data) with
  | some q => Frac.le ⟨0, 1⟩ q && Frac.lt q ⟨10, 1⟩
  | none => false

/-- `_is_numeric`: the stripped value parses as a float. -/
def isNumericStr (v : String) : Bool :=
  (pyFloatChars (pyStrip v.data)).isSome

/-- Embedding of `_infer_single_column_type`: the fixed priority order of
the range heuristics (temperature, mass percent, pH, phase, molality,
generic numeric, text). -/
def inferSingleColumnType (sample : List String) : String × Frac :=
  let sampleStr := List.intercalate [' '] (sample.map (fun v => pyLower v.data))
  if degreeSearch sampleStr || sample.all isTemperatureRange then ("Temperature (°C)", ⟨8, 10⟩)
  else if sampleStr.contains '%' || sample.all isPercentageRange then ("Mass %", ⟨75, 100⟩)
  else if sample.all isPhRange then ("pH", ⟨7, 10⟩)
  else if sample.all isPhaseLabel then ("Phase", ⟨85, 100⟩)
  else if sample.all isSmallDecimal then ("Molality", ⟨6, 10⟩)
  else if sample.all isNumericStr then ("Numeric Data", ⟨1, 2⟩)
  else ("Text Data", ⟨4, 10⟩)

/-- Embedding of `_infer_headers_from_data`: per column, infer a header
from the first 20 non-null values; overall confidence is the average. -/
def inferHeadersFromData (df : SFrame) : SFrame × Frac :=
  let per := df.cols.map (fun c =>
    let sample := (c.cells.filterMap id).take 20
    if sample.isEmpty then ("Empty_" ++ colNameStr c.name, (⟨1, 10⟩ : Frac))
    else inferSingleColumnType sample)
  let avg := if df.cols.length = 0 then ⟨0, 1⟩
    else Frac.divNat (fracSum (per.map Prod.snd)) df.cols.length
  (⟨(df.cols.zip per).map (fun q => ⟨some q.2.1, q.1.cells⟩)⟩, avg)

/-- Python `str.isdigit()` over ASCII. -/
def pyIsDigitStr (l : List Char) : Bool :=
  !l.isEmpty && l.all isDigitC

/-- Embedding of `_generate_descriptive_headers`: digit-only or "Unnamed"
labels become Column_A, Column_B, …; the rest keep their string form;
confidence 0.3. -/
def genDescriptiveHeaders (df : SFrame) : SFrame × Frac :=
  (⟨df.cols.enum.map (fun p =>
    let s := colNameStr p.2.name
    ⟨some (if pyIsDigitStr s.data || isSubL ['U', 'n', 'n', 'a', 'm', 'e', 'd'] s.data
      then "Column_" ++ String.singleton (Char.ofNat (65 + p.1))
      else s), p.2.cells⟩)⟩, ⟨3, 10⟩)

/-- Result of `detect_headers`: the corrected frame plus the metadata the
claims mention (the `strategies_tried` log in the metadata dictionary is
presentation-only and not modelled). -/
structure DetectResult where
  frame : SFrame
  method : String
  confidence : Frac
deriving Repr, DecidableEq

/-- Python truthiness of the optional `column_types` dictionary. -/
def ctPresent (ct : Option CTypes) : Bool :=
  match ct with
  | some l => !l.isEmpty
  | none => false

/-- Strategies 3 and 4 of the cascade (shared by both paths out of
strategy 2). -/
def detectTail (df : SFrame) : DetectResult :=
  let r3 := inferHeadersFromData df
  if Frac.lt ⟨1, 2⟩ r3.2 then ⟨r3.1, "data_pattern_inference", r3.2⟩
  else ⟨(genDescriptiveHeaders df).1, "descriptive_numeric", ⟨3, 10⟩⟩

/-- Embedding of `HeaderDetector.detect_headers`: the strategy cascade
(first-row header at threshold 0.7, type propagation at 0.6 when
metadata is present, data-pattern inference at 0.5, then the
always-succeeding descriptive fallback at confidence 0.3). -/
def detectHeaders (df : SFrame) (ct : Option CTypes) : DetectResult :=
  let r1 := tryFirstRowHeader df
  if Frac.lt ⟨7, 10⟩ r1.2 then ⟨r1.1, "first_row_header", r1.2⟩
  else if ctPresent ct then
    let r2 := genHeadersFromTypes df (ct.getD [])
    if Frac.lt ⟨6, 10⟩ r2.2 then ⟨r2.1, "column_type_inference", r2.2⟩
    else detectTail df
  else detectTail df

/-- Characterisation of a name emitted by the `make_columns_unique` loop
with dictionary state `counts` still to come: either a first occurrence
(underscore-free, not yet counted) or a suffixed repeat `b_n` whose index
exceeds the current count of `b`. -/
def OutOK (counts : List (String × Nat)) (s : String) : Prop :=
  ('_' ∉ s.data ∧ lookupC counts s = none) ∨
  (∃ b n, s = renderSuffixed b n ∧ '_' ∉ b.data ∧ 1 ≤ n ∧
    (∀ k, lookupC counts b = some k → k < n))

/-! ### Theorems -/

theorem pyIsSpace_eq_false_of_digitDot {c : Char} (h : isDigitDot c = true) :
    pyIsSpace c = false := by
  cases hq : pyIsSpace c with
  | false => rfl
  | true =>
    simp only [pyIsSpace, Bool.or_eq_true, decide_eq_true_eq] at hq
    rcases hq with ((((h1 | h1) | h1) | h1) | h1) | h1 <;> subst h1 <;> simp [isDigitDot, isDigitC] at h

theorem ne_of_digitDot {c d : Char} (h : isDigitDot c = true)
    (hd : isDigitDot d = false) : c ≠ d := by
  intro he; subst he; rw [h] at hd; exact Bool.noConfusion hd

theorem countSpaces_eq_zero_of_digitDot {l : List Char}
    (h : ∀ c ∈ l, isDigitDot c = true) : countSpaces l = 0 := by
  cases l with
  | nil => rfl
  | cons c rest =>
    simp only [countSpaces, List.takeWhile_cons,
      pyIsSpace_eq_false_of_digitDot (h c (List.mem_cons_self c rest))]
    rfl

theorem spacesThen_eq_none_of_digitDot {p : Char → Bool} {l : List Char}
    (h : ∀ c ∈ l, isDigitDot c = true) : spacesThen p l = none := by
  simp [spacesThen, countSpaces_eq_zero_of_digitDot h]

theorem dropWhile_eq_self_of_digitDot {p : Char → Bool} {l : List Char}
    (h : ∀ c ∈ l, isDigitDot c = true)
    (hp : ∀ c, isDigitDot c = true → p c = false) : l.dropWhile p = l := by
  cases l with
  | nil => rfl
  | cons c rest => simp [List.dropWhile_cons, hp c (h c (List.mem_cons_self c rest))]

theorem pyStrip_eq_self_of_digitDot {l : List Char}
    (h : ∀ c ∈ l, isDigitDot c = true) : pyStrip l = l := by
  unfold pyStrip
  rw [dropWhile_eq_self_of_digitDot h (fun c hc => pyIsSpace_eq_false_of_digitDot hc)]
  rw [dropWhile_eq_self_of_digitDot (fun c hc => h c (List.mem_reverse.mp hc))
    (fun c hc => pyIsSpace_eq_false_of_digitDot hc)]
  exact List.reverse_reverse l

theorem refMatch_eq_none_of_digitDot {l : List Char}
    (h : ∀ c ∈ l, isDigitDot c = true) : refMatch l = none := by
  unfold refMatch
  have hnil : l.dropWhile isDigitDot = [] := by
    rw [List.dropWhile_eq_nil_iff]
    intro c hc
    exact h c hc
  rw [hnil]
  cases hn : (l.takeWhile isDigitDot).isEmpty <;> simp

theorem subCommaGo_eq_self_of_digitDot (fuel : Nat) :
    ∀ l : List Char, (∀ c ∈ l, isDigitDot c = true) → subCommaGo fuel l = l := by
  induction fuel with
  | zero => intro l _; cases l <;> rfl
  | succ fuel ih =>
    intro l h
    cases l with
    | nil => rfl
    | cons a rest =>
      cases rest with
      | nil => simp [subCommaGo]
      | cons b rest1 =>
        cases rest1 with
        | nil =>
          show a :: subCommaGo fuel [b] = a :: [b]
          rw [ih [b] (fun c hc => h c (List.mem_cons_of_mem a hc))]
        | cons c rest2 =>
          have hb : isDigitDot b = true :=
            h b (by simp)
          have hbne : b ≠ ',' := ne_of_digitDot hb (by decide)
          show (if isDigitC a && b = ',' && isDigitC c then
              a :: '.' :: c :: subCommaGo fuel rest2
            else a :: subCommaGo fuel (b :: c :: rest2)) = a :: b :: c :: rest2
          rw [if_neg (by simp [hbne])]
          rw [ih (b :: c :: rest2) (fun x hx => h x (List.mem_cons_of_mem a hx))]

theorem subDigitSpaceDotGo_eq_self_of_digitDot (fuel : Nat) :
    ∀ l : List Char, (∀ c ∈ l, isDigitDot c = true) →
      subDigitSpaceDotGo fuel l = l := by
  induction fuel with
  | zero => intro l _; cases l <;> rfl
  | succ fuel ih =>
    intro l h
    cases l with
    | nil => rfl
    | cons c rest =>
      have hrest : ∀ d ∈ rest, isDigitDot d = true :=
        fun d hd => h d (List.mem_cons_of_mem c hd)
      unfold subDigitSpaceDotGo
      rw [spacesThen_eq_none_of_digitDot hrest]
      have hih := ih rest hrest
      split <;> exact congrArg (c :: ·) hih

theorem subDigitSpaceDigitGo_eq_self_of_digitDot (fuel : Nat) :
    ∀ l : List Char, (∀ c ∈ l, isDigitDot c = true) →
      subDigitSpaceDigitGo fuel l = l := by
  induction fuel with
  | zero => intro l _; cases l <;> rfl
  | succ fuel ih =>
    intro l h
    cases l with
    | nil => rfl
    | cons c rest =>
      have hrest : ∀ d ∈ rest, isDigitDot d = true :=
        fun d hd => h d (List.mem_cons_of_mem c hd)
      unfold subDigitSpaceDigitGo
      rw [spacesThen_eq_none_of_digitDot hrest]
      have hih := ih rest hrest
      split <;> exact congrArg (c :: ·) hih

theorem subDotSpaceDigitGo_eq_self_of_digitDot (fuel : Nat) :
    ∀ l : List Char, (∀ c ∈ l, isDigitDot c = true) →
      subDotSpaceDigitGo fuel l = l := by
  induction fuel with
  | zero => intro l _; cases l <;> rfl
  | succ fuel ih =>
    intro l h
    cases l with
    | nil => rfl
    | cons c rest =>
      have hrest : ∀ d ∈ rest, isDigitDot d = true :=
        fun d hd => h d (List.mem_cons_of_mem c hd)
      unfold subDotSpaceDigitGo
      rw [spacesThen_eq_none_of_digitDot hrest]
      have hih := ih rest hrest
      split <;> exact congrArg (c :: ·) hih

theorem replaceAllGo_eq_self_of_digitDot (pat rep : List Char) (bad : Char)
    (hbad : bad ∈ pat) (hbd : isDigitDot bad = false) (fuel : Nat) :
    ∀ l : List Char, (∀ c ∈ l, isDigitDot c = true) →
      replaceAllGo pat rep fuel l = l := by
  induction fuel with
  | zero => intro l _; cases l <;> rfl
  | succ fuel ih =>
    intro l h
    cases l with
    | nil => rfl
    | cons c rest =>
      have hpre : (decide (pat ≠ []) && pat.isPrefixOf (c :: rest)) = false := by
        cases hp : pat.isPrefixOf (c :: rest) with
        | false => simp
        | true =>
          exfalso
          have hpref : pat <+: c :: rest := by
            rw [← List.isPrefixOf_iff_prefix]; exact hp
          have hmem : bad ∈ c :: rest := hpref.subset hbad
          rw [h bad hmem] at hbd
          exact Bool.noConfusion hbd
      unfold replaceAllGo
      rw [hpre]
      simp only [Bool.false_eq_true, if_false]
      rw [ih rest (fun d hd => h d (List.mem_cons_of_mem c hd))]

theorem soSubGo_eq_self_of_digitDot (fuel : Nat) :
    ∀ (prevWord : Bool) (l : List Char), (∀ c ∈ l, isDigitDot c = true) →
      soSubGo fuel prevWord l = l := by
  induction fuel with
  | zero => intro pw l _; cases l <;> rfl
  | succ fuel ih =>
    intro pw l h
    cases l with
    | nil => rfl
    | cons c rest =>
      have hc : c ≠ 's' := ne_of_digitDot (h c (List.mem_cons_self c rest)) (by decide)
      unfold soSubGo
      rw [show (decide (c = 's') && boundaryBefore pw) = false by simp [hc]]
      simp only [Bool.false_eq_true, if_false]
      rw [ih (isWordC c) rest (fun d hd => h d (List.mem_cons_of_mem c hd))]

theorem zeroSoTail_eq_none_of_digitDot {l : List Char}
    (h : ∀ c ∈ l, isDigitDot c = true) : zeroSoTail l = none := by
  unfold zeroSoTail
  rw [countSpaces_eq_zero_of_digitDot h, List.drop_zero]
  cases l with
  | nil => rfl
  | cons c rest =>
    by_cases hc : c = '.'
    · subst hc
      have hrest : ∀ d ∈ rest, isDigitDot d = true :=
        fun d hd => h d (List.mem_cons_of_mem _ hd)
      simp only [List.head?_cons, Option.some.injEq, if_pos rfl, List.tail_cons]
      rw [countSpaces_eq_zero_of_digitDot hrest, List.drop_zero]
      have hhead : rest.head? ≠ some 's' := by
        cases rest with
        | nil => simp
        | cons d rest2 =>
          have hd : d ≠ 's' :=
            ne_of_digitDot (hrest d (List.mem_cons_self d rest2)) (by decide)
          simp [hd]
      rw [if_neg hhead]
      simp
    · have hhead : (c :: rest).head? ≠ some '.' := by simp [hc]
      rw [if_neg hhead]

theorem zeroSoSubGo_eq_self_of_digitDot (fuel : Nat) :
    ∀ (prevWord : Bool) (l : List Char), (∀ c ∈ l, isDigitDot c = true) →
      zeroSoSubGo fuel prevWord l = l := by
  induction fuel with
  | zero => intro pw l _; cases l <;> rfl
  | succ fuel ih =>
    intro pw l h
    cases l with
    | nil => rfl
    | cons c rest =>
      have hrest : ∀ d ∈ rest, isDigitDot d = true :=
        fun d hd => h d (List.mem_cons_of_mem c hd)
      unfold zeroSoSubGo
      rw [zeroSoTail_eq_none_of_digitDot hrest]
      by_cases hc : (decide (c = '0') && boundaryBefore pw) = true
      · have hc0 : c = '0' := by
          rcases Bool.and_eq_true .. |>.mp hc with ⟨h1, _⟩
          exact of_decide_eq_true h1
        subst hc0
        rw [if_pos hc]
        show '0' :: zeroSoSubGo fuel true rest = '0' :: rest
        rw [ih true rest hrest]
      · rw [if_neg (by simpa using hc)]
        rw [ih (isWordC c) rest hrest]

theorem replaceAll_eq_self_of_digitDot (pat rep : List Char) (bad : Char)
    (hbad : bad ∈ pat) (hbd : isDigitDot bad = false) {l : List Char}
    (h : ∀ c ∈ l, isDigitDot c = true) : replaceAll pat rep l = l :=
  replaceAllGo_eq_self_of_digitDot pat rep bad hbad hbd l.length l h

theorem advancedCleanChars_eq_self_of_digitDot {l : List Char}
    (h : ∀ c ∈ l, isDigitDot c = true) : advancedCleanChars l = l := by
  unfold advancedCleanChars
  rw [refMatch_eq_none_of_digitDot h]
  simp only [ocrFixes, List.foldl_cons, List.foldl_nil]
  rw [show subComma l = l from subCommaGo_eq_self_of_digitDot _ _ h]
  rw [show subDigitSpaceDot l = l from subDigitSpaceDotGo_eq_self_of_digitDot _ _ h]
  rw [show subDigitSpaceDigit l = l from subDigitSpaceDigitGo_eq_self_of_digitDot _ _ h]
  rw [show subDotSpaceDigit l = l from subDotSpaceDigitGo_eq_self_of_digitDot _ _ h]
  rw [replaceAll_eq_self_of_digitDot (String.data "mo1") (String.data "mol") 'm'
    (by decide) (by decide) h]
  rw [replaceAll_eq_self_of_digitDot (String.data "Q .") (String.data "0.") 'Q'
    (by decide) (by decide) h]
  rw [replaceAll_eq_self_of_digitDot (String.data "a .") (String.data "0.") 'a'
    (by decide) (by decide) h]
  rw [replaceAll_eq_self_of_digitDot (String.data "I I") (String.data "II") 'I'
    (by decide) (by decide) h]
  rw [replaceAll_eq_self_of_digitDot (String.data "0. so") (String.data "0.50") 's'
    (by decide) (by decide) h]
  rw [replaceAll_eq_self_of_digitDot (String.data ". so") (String.data ".50") 's'
    (by decide) (by decide) h]
  rw [show soSub l = l from soSubGo_eq_self_of_digitDot _ _ _ h]
  rw [show zeroSoSub l = l from zeroSoSubGo_eq_self_of_digitDot _ _ _ h]
  exact pyStrip_eq_self_of_digitDot h

/-! ### Claims C1-C4 -/

/-- C1 (code bug): running the Cell Normalizer `advanced_clean` before the
Phase/Value Splitter `extract_phase` loses the phase label of
`"0.026 (D)"`: the normalizer already strips the marker, so the splitter
sees only `"0.026"` and returns no phase, while the claim (and spec §4.1
rule 1 / §8) requires value `"0.026"` with phase `"D"`.  Running the
splitter first does recover the pair, confirming that the data supports
the claimed invariant only under the spec-mandated order. -/
theorem c1_normalize_then_split_loses_phase :
    advancedClean (some "0.026 (D)") = some "0.026" ∧
    extractPhase (advancedClean (some "0.026 (D)")) = (some "0.026", none) ∧
    extractPhase (some "0.026 (D)") = (some "0.026", some "D") := by
  decide

/-- C2 (counterexample): `advanced_clean` is not idempotent.  On
`"1,2,3"` the decimal-separator repair rewrites only the first comma
(`re.sub` resumes after each match), and a second application rewrites
the second comma, so the cleaned value changes again. -/
theorem c2_counterexample_not_idempotent :
    advancedClean (some "1,2,3") = some "1.2,3" ∧
    advancedClean (advancedClean (some "1,2,3")) = some "1.2.3" ∧
    advancedClean (advancedClean (some "1,2,3")) ≠ advancedClean (some "1,2,3") := by
  decide

/-- C2 (amended): `advanced_clean` is idempotent on null input (by
definition) and on every input whose cleaned output consists only of
digits and periods — on such output no rule of the normalizer can fire,
so a second application is the identity. -/
theorem c2_amended_idempotent_on_numeric_output (v : Option String) (s : String)
    (hv : advancedClean v = some s) (hs : ∀ c ∈ s.data, isDigitDot c = true) :
    advancedClean (advancedClean v) = advancedClean v := by
  rw [hv]
  show some (String.mk (advancedCleanChars s.data)) = some s
  rw [advancedCleanChars_eq_self_of_digitDot hs]

/-- C2 (witness): the concrete cell `"7,5"` cleans to the digits-and-period
string `"7.5"`, on which `advanced_clean` is idempotent. -/
theorem c2_witness :
    advancedClean (advancedClean (some "7,5")) = advancedClean (some "7,5") :=
  c2_amended_idempotent_on_numeric_output (some "7,5") "7.5" (by decide) (by decide)

/-- C3 (counterexample): `"IV"` is a token of the spec's phase grammar with
no numeric content, yet `extract_phase` returns it as the value with no
phase — the quick-check regex `^[A-F](\+[A-F])?$|^I{1,3}$` covers Roman
numerals only up to III, and the trailing-label patterns require leading
whitespace. -/
theorem c3_counterexample_roman_iv :
    specPhaseToken "IV" = true ∧
    (∀ c ∈ "IV".data, isDigitC c = false) ∧
    extractPhase (some "IV") = (some "IV", none) ∧
    ((some "IV" : Option String), (none : Option String)) ≠ (none, some "IV") := by
  decide

/-- C3 (amended): for every input that is a single letter A-F, a Roman
numeral I, II or III, or a "+"-joined pair of letters A-F, the splitter
returns a null value and the token as the phase; the remaining
phase-grammar tokens (IV, V, VI, longer combinations, decimal sub-labels)
are instead returned unchanged as the value with no phase. -/
theorem c3_amended_quick_tokens (s : String) (h : s ∈ quickPhaseTokens) :
    extractPhase (some s) = (none, some s) := by
  have hall : ∀ x ∈ quickPhaseTokens, extractPhase (some x) = (none, some x) := by
    decide
  exact hall s h

/-- C3 (witness): the combined token `"A+B"` splits to a null value with
phase `"A+B"`. -/
theorem c3_witness : extractPhase (some "A+B") = (none, some "A+B") :=
  c3_amended_quick_tokens "A+B" (by decide)

/-- C4 (code bug): the dash-run sentinels `"--"` and `"----"` are mapped to
`(null, null)` as claimed, but `"---"` is returned as the value: the
sentinel list of the no-match branch of `extract_phase`
(`['', '-', '--', '----']`) omits `'---'`, although the list used after a
successful phase match does include it. -/
theorem c4_dash_sentinel_gap :
    extractPhase (some "--") = (none, none) ∧
    extractPhase (some "----") = (none, none) ∧
    extractPhase (some "---") = (some "---", none) := by
  decide

theorem pickBest_spec (l : List String) :
    ∀ (ks : List String) (k r : String), pickBest l k ks = r →
      (r = k ∧ ∀ t ∈ ks, l.count t ≤ l.count k) ∨
      (∃ a b, ks = a ++ r :: b ∧
        l.count k < l.count r ∧
        (∀ e ∈ a, l.count e < l.count r) ∧
        (∀ t ∈ b, l.count t ≤ l.count r)) := by
  intro ks
  induction ks with
  | nil =>
    intro k r hr
    exact Or.inl ⟨hr.symm, by simp⟩
  | cons x ks ih =>
    intro k r hr
    by_cases h : l.count x > l.count k
    · have hun : pickBest l x ks = r := by
        rw [← hr]
        show _ = List.foldl _ (if l.count x > l.count k then x else k) ks
        rw [if_pos h]
        rfl
      rcases ih x r hun with ⟨hrx, hmax⟩ | ⟨a, b, hab, hk, ha, hb⟩
      · subst hrx
        refine Or.inr ⟨[], ks, rfl, h, by simp, hmax⟩
      · refine Or.inr ⟨x :: a, b, by rw [hab]; rfl, lt_trans h hk, ?_, hb⟩
        intro e he
        rcases List.mem_cons.mp he with rfl | he2
        · exact hk
        · exact ha e he2
    · have hun : pickBest l k ks = r := by
        rw [← hr]
        show _ = List.foldl _ (if l.count x > l.count k then x else k) ks
        rw [if_neg h]
        rfl
      rcases ih k r hun with ⟨hrk, hmax⟩ | ⟨a, b, hab, hk, ha, hb⟩
      · refine Or.inl ⟨hrk, ?_⟩
        intro t ht
        rcases List.mem_cons.mp ht with rfl | ht2
        · exact Nat.le_of_not_lt h
        · exact hmax t ht2
      · refine Or.inr ⟨x :: a, b, by rw [hab]; rfl, hk, ?_, hb⟩
        intro e he
        rcases List.mem_cons.mp he with rfl | he2
        · exact Nat.lt_of_le_of_lt (Nat.le_of_not_lt h) hk
        · exact ha e he2

theorem counterKeysGo_mem (fuel : Nat) :
    ∀ l : List String, l.length ≤ fuel →
      ∀ s, s ∈ counterKeysGo fuel l ↔ s ∈ l := by
  induction fuel with
  | zero =>
    intro l hl s
    have : l = [] := List.length_eq_zero.mp (Nat.le_zero.mp hl)
    subst this
    rfl
  | succ fuel ih =>
    intro l hl s
    cases l with
    | nil => rfl
    | cons x xs =>
      have hlen : (xs.filter (fun y => y ≠ x)).length ≤ fuel :=
        le_trans (List.length_filter_le _ xs) (Nat.le_of_succ_le_succ hl)
      show s ∈ x :: counterKeysGo fuel (xs.filter (fun y => y ≠ x)) ↔ s ∈ x :: xs
      constructor
      · intro hs
        rcases List.mem_cons.mp hs with rfl | hs2
        · exact List.mem_cons_self _ _
        · have := (ih _ hlen s).mp hs2
          exact List.mem_cons_of_mem x (List.mem_of_mem_filter this)
      · intro hs
        rcases List.mem_cons.mp hs with rfl | hs2
        · exact List.mem_cons_self _ _
        · by_cases hsx : s = x
          · subst hsx; exact List.mem_cons_self _ _
          · refine List.mem_cons_of_mem x ((ih _ hlen s).mpr ?_)
            exact List.mem_filter.mpr ⟨hs2, by simpa using hsx⟩

theorem firstIdx_filter_lt (x : String) :
    ∀ (xs : List String) (m t : String), m ≠ x → t ≠ x →
      firstIdx m (xs.filter (fun y => y ≠ x)) < firstIdx t (xs.filter (fun y => y ≠ x)) →
      firstIdx m xs < firstIdx t xs := by
  intro xs
  induction xs with
  | nil => intro m t _ _ h; simpa using h
  | cons y ys ih =>
    intro m t hm ht h
    by_cases hyx : y = x
    · have hfy : (y :: ys).filter (fun z => z ≠ x) = ys.filter (fun z => z ≠ x) := by
        simp [List.filter_cons, hyx]
      rw [hfy] at h
      have := ih m t hm ht h
      show (if y = m then 0 else firstIdx m ys + 1) < (if y = t then 0 else firstIdx t ys + 1)
      rw [if_neg (by rw [hyx]; exact fun he => hm he.symm),
        if_neg (by rw [hyx]; exact fun he => ht he.symm)]
      omega
    · have hfy : (y :: ys).filter (fun z => z ≠ x) = y :: ys.filter (fun z => z ≠ x) := by
        simp [List.filter_cons, hyx]
      rw [hfy] at h
      show (if y = m then 0 else firstIdx m ys + 1) < (if y = t then 0 else firstIdx t ys + 1)
      by_cases hym : y = m
      · have hyt : ¬ y = t := by
          intro hyt
          rw [show firstIdx m (y :: ys.filter (fun z => z ≠ x)) = 0 from by simp [firstIdx, hym],
            show firstIdx t (y :: ys.filter (fun z => z ≠ x)) = 0 from by simp [firstIdx, hyt]] at h
          exact Nat.lt_irrefl 0 h
        rw [if_pos hym, if_neg hyt]
        omega
      · by_cases hyt : y = t
        · exfalso
          rw [show firstIdx t (y :: ys.filter (fun z => z ≠ x)) = 0 from by simp [firstIdx, hyt]] at h
          exact Nat.not_lt_zero _ h
        · rw [if_neg hym, if_neg hyt]
          have h2 : firstIdx m (ys.filter (fun z => z ≠ x)) < firstIdx t (ys.filter (fun z => z ≠ x)) := by
            have hm2 : firstIdx m (y :: ys.filter (fun z => z ≠ x)) = firstIdx m (ys.filter (fun z => z ≠ x)) + 1 := by
              simp [firstIdx, hym]
            have ht2 : firstIdx t (y :: ys.filter (fun z => z ≠ x)) = firstIdx t (ys.filter (fun z => z ≠ x)) + 1 := by
              simp [firstIdx, hyt]
            omega

          have := ih m t hm ht h2
          omega

theorem counterKeysGo_order (fuel : Nat) :
    ∀ (l a b : List String) (m : String), l.length ≤ fuel →
      counterKeysGo fuel l = a ++ m :: b →
      ∀ t ∈ b, firstIdx m l < firstIdx t l := by
  induction fuel with
  | zero =>
    intro l a b m hl heq t ht
    have : l = [] := List.length_eq_zero.mp (Nat.le_zero.mp hl)
    subst this
    simp [counterKeysGo] at heq
  | succ fuel ih =>
    intro l a b m hl heq t ht
    cases l with
    | nil =>
      simp [counterKeysGo] at heq
    | cons x xs =>
      have hlen : (xs.filter (fun y => y ≠ x)).length ≤ fuel :=
        le_trans (List.length_filter_le _ xs) (Nat.le_of_succ_le_succ hl)
      have heq2 : x :: counterKeysGo fuel (xs.filter (fun y => y ≠ x)) = a ++ m :: b := heq
      cases a with
      | nil =>
        simp only [List.nil_append] at heq2
        have hmx : m = x := (List.cons.injEq .. |>.mp heq2).1.symm
        have hb : b = counterKeysGo fuel (xs.filter (fun y => y ≠ x)) :=
          ((List.cons.injEq .. |>.mp heq2).2).symm
        subst hmx
        have htx : t ≠ m := by
          intro hx
          subst hx
          have ht2 : t ∈ xs.filter (fun y => y ≠ t) := by
            rw [hb] at ht
            exact (counterKeysGo_mem fuel _ hlen t).mp ht
          have := List.of_mem_filter ht2
          simp at this
        show firstIdx m (m :: xs) < firstIdx t (m :: xs)
        have h1 : firstIdx m (m :: xs) = 0 := by simp [firstIdx]
        have h2 : firstIdx t (m :: xs) = firstIdx t xs + 1 := by
          have hne : m ≠ t := fun he => htx he.symm
          simp [firstIdx, hne]
        omega
      | cons y a2 =>
        have hyx : y = x := (List.cons.injEq .. |>.mp heq2).1.symm
        have hrest : counterKeysGo fuel (xs.filter (fun z => z ≠ x)) = a2 ++ m :: b :=
          (List.cons.injEq .. |>.mp heq2).2
        have hmem : ∀ u ∈ a2 ++ m :: b, u ∈ xs.filter (fun z => z ≠ x) := by
          intro u hu
          rw [← hrest] at hu
          exact (counterKeysGo_mem fuel _ hlen u).mp hu
        have hmx : m ≠ x := by
          have := List.of_mem_filter (hmem m (by simp))
          simpa using this
        have htxne : t ≠ x := by
          have := List.of_mem_filter (hmem t (by simp [ht]))
          simpa using this
        have hidx : firstIdx m (xs.filter (fun z => z ≠ x)) < firstIdx t (xs.filter (fun z => z ≠ x)) :=
          ih _ a2 b m hlen hrest t ht
        have hlift := firstIdx_filter_lt x xs m t hmx htxne hidx
        show firstIdx m (x :: xs) < firstIdx t (x :: xs)
        have h1 : firstIdx m (x :: xs) = firstIdx m xs + 1 := by
          have hne : x ≠ m := fun he => hmx he.symm
          simp [firstIdx, hne]
        have h2 : firstIdx t (x :: xs) = firstIdx t xs + 1 := by
          have hne : x ≠ t := fun he => htxne he.symm
          simp [firstIdx, hne]
        omega

/-- Specification of the majority vote: the winner is a candidate of
maximal count whose first occurrence precedes that of every other
candidate with the same count. -/
theorem mostCommonKey_spec (l : List String) (m : String)
    (h : mostCommonKey l = some m) :
    m ∈ l ∧ (∀ t ∈ l, l.count t ≤ l.count m) ∧
      (∀ t ∈ l, l.count t = l.count m → firstIdx m l ≤ firstIdx t l) := by
  cases l with
  | nil => exact absurd h (by simp [mostCommonKey, counterKeys, counterKeysGo])
  | cons x xs =>
    have hkeys : counterKeys (x :: xs) =
        x :: counterKeysGo xs.length (xs.filter (fun y => y ≠ x)) := rfl
    have hm : m = pickBest (x :: xs) x (counterKeysGo xs.length (xs.filter (fun y => y ≠ x))) := by
      have : mostCommonKey (x :: xs) =
          some (pickBest (x :: xs) x (counterKeysGo xs.length (xs.filter (fun y => y ≠ x)))) := rfl
      rw [this] at h
      exact (Option.some.injEq .. |>.mp h).symm
    have hmemk : ∀ s, s ∈ counterKeys (x :: xs) ↔ s ∈ x :: xs :=
      counterKeysGo_mem (x :: xs).length (x :: xs) (le_refl _)
    rcases pickBest_spec (x :: xs) (counterKeysGo xs.length (xs.filter (fun y => y ≠ x))) x m
      hm.symm with ⟨hr, hmax⟩ | ⟨a, b, hab, hk, ha, hb⟩
    · subst hr
      refine ⟨List.mem_cons_self _ _, ?_, ?_⟩
      · intro t ht
        rcases (hmemk t).mpr ht |> fun htk => List.mem_cons.mp (hkeys ▸ htk) with rfl | htK
        · exact le_refl _
        · exact hmax t htK
      · intro t _ _
        show firstIdx m (m :: xs) ≤ firstIdx t (m :: xs)
        simp [firstIdx]
    · have hkeys2 : counterKeys (x :: xs) = (x :: a) ++ m :: b := by
        rw [hkeys, hab]
        rfl
      have hmem : m ∈ x :: xs := by
        refine (hmemk m).mp ?_
        rw [hkeys2]
        simp
      have hsplit : ∀ t ∈ x :: xs, t = m ∨ t ∈ x :: a ∨ t ∈ b := by
        intro t ht
        have : t ∈ (x :: a) ++ m :: b := hkeys2 ▸ (hmemk t).mpr ht
        rcases List.mem_append.mp this with h1 | h2
        · exact Or.inr (Or.inl h1)
        · rcases List.mem_cons.mp h2 with rfl | h3
          · exact Or.inl rfl
          · exact Or.inr (Or.inr h3)
      have hlt : ∀ e ∈ x :: a, (x :: xs).count e < (x :: xs).count m := by
        intro e he
        rcases List.mem_cons.mp he with rfl | he2
        · exact hk
        · exact ha e he2
      refine ⟨hmem, ?_, ?_⟩
      · intro t ht
        rcases hsplit t ht with rfl | h1 | h2
        · exact le_refl _
        · exact Nat.le_of_lt (hlt t h1)
        · exact hb t h2
      · intro t ht hcnt
        rcases hsplit t ht with rfl | h1 | h2
        · exact le_refl _
        · exact absurd hcnt (Nat.ne_of_lt (hlt t h1))
        · exact Nat.le_of_lt
            (counterKeysGo_order (x :: xs).length (x :: xs) (x :: a) b m (le_refl _) hkeys2 t h2)

/-! ### Claims C5 and C10 -/

/-- C5: for a single input grid (N=1), `compare_extractions` returns
agreement exactly 1.0, the input grid itself as the consensus, the single
method name, and an empty discrepancy list (with no needs-review entry). -/
theorem c5_single_extraction_identity (name : String) (g : Grid) :
    compareExtractions [(name, g)] =
      ⟨ConsensusFrame.raw g, Frac.ofNat 1, [name], some [], none⟩ := rfl

/-- C10: for a non-empty family of input grids, the consensus grid built by
`_build_consensus` has max-rows × max-cols shape; a cell with no covering
non-null source value stays null; and every other cell holds the most
frequent candidate (candidates compared as stripped strings, first seen
winning ties), converted to a float when parseable. -/
theorem c10_build_consensus_majority (gs : List Grid) (hne : gs ≠ []) :
    (buildConsensus gs).length = maxRows gs ∧
    (∀ row ∈ buildConsensus gs, row.length = maxCols gs) ∧
    (∀ i j, i < maxRows gs → j < maxCols gs →
      (collectCell gs i j = [] → cgCell (buildConsensus gs) i j = none) ∧
      (∀ cands, cands = (collectCell gs i j).map (fun v => String.mk (pyStrip v.data)) →
        cands ≠ [] →
        ∃ m, m ∈ cands ∧
          (∀ t ∈ cands, cands.count t ≤ cands.count m) ∧
          (∀ t ∈ cands, cands.count t = cands.count m → firstIdx m cands ≤ firstIdx t cands) ∧
          cgCell (buildConsensus gs) i j = some (floatConvert m))) := by
  have hbuild : buildConsensus gs =
      (List.range (maxRows gs)).map (fun i =>
        (List.range (maxCols gs)).map (fun j =>
          mostCommonValue (collectCell gs i j))) := by
    unfold buildConsensus
    rw [if_neg (by simpa using hne)]
  have hcell : ∀ i j, i < maxRows gs → j < maxCols gs →
      cgCell (buildConsensus gs) i j = mostCommonValue (collectCell gs i j) := by
    intro i j hi hj
    have hrow : (buildConsensus gs).getD i [] =
        (List.range (maxCols gs)).map (fun j => mostCommonValue (collectCell gs i j)) := by
      rw [hbuild, List.getD_eq_getElem?_getD, List.getElem?_map, List.getElem?_range hi]
      rfl
    show ((buildConsensus gs).getD i []).getD j none = _
    rw [hrow, List.getD_eq_getElem?_getD, List.getElem?_map, List.getElem?_range hj]
    rfl
  refine ⟨by rw [hbuild]; simp, ?_, ?_⟩
  · intro row hrow
    rw [hbuild] at hrow
    rcases List.mem_map.mp hrow with ⟨i, _, hmap⟩
    rw [← hmap]
    simp
  · intro i j hi hj
    refine ⟨?_, ?_⟩
    · intro hempty
      rw [hcell i j hi hj, hempty]
      rfl
    · intro cands hcands hne2
      have hmk : mostCommonValue (collectCell gs i j) = (mostCommonKey cands).map floatConvert := by
        rw [hcands]
        rfl
      cases hmkey : mostCommonKey cands with
      | none =>
        exfalso
        cases hc : cands with
        | nil => exact hne2 hc
        | cons v vs =>
          rw [hc] at hmkey
          exact Option.noConfusion hmkey
      | some m =>
        rcases mostCommonKey_spec cands m hmkey with ⟨hmem, hmax, hfirst⟩
        exact ⟨m, hmem, hmax, hfirst, by rw [hcell i j hi hj, hmk, hmkey]; rfl⟩

/-- C10 (witness): two concrete one-row grids; the consensus has max shape
and its first cell holds the majority value "x" (not float-parseable, so
stored as text). -/
theorem c10_witness :
    (buildConsensus [[[some "x", some "y"]], [[some "x"]]]).length =
      maxRows [[[some "x", some "y"]], [[some "x"]]] ∧
    cgCell (buildConsensus [[[some "x", some "y"]], [[some "x"]]]) 0 0 =
      some (ConsensusVal.txt "x") :=
  ⟨(c10_build_consensus_majority [[[some "x", some "y"]], [[some "x"]]]
      (by decide)).1, by decide⟩

/-! ### Claims C6 and C7 -/

/-- C6: the validation score is 100 minus 15 per critical flag, 5 per
warning and 1 per info flag, clamped to [0, 100]; and whenever the
unclamped score is at least 15, one more critical flag decreases the
score by exactly 15. -/
theorem c6_score_formula_and_monotonicity (c w i : Nat) :
    validationScore c w i = max 0 (min 100 (100 - 15 * (c : Int) - 5 * (w : Int) - (i : Int))) ∧
    ((15 : Int) ≤ 100 - 15 * (c : Int) - 5 * (w : Int) - (i : Int) →
      validationScore (c + 1) w i = validationScore c w i - 15) := by
  constructor
  · unfold validationScore
    norm_num
  · intro h
    unfold validationScore
    push_cast
    omega

/-- C6 (witness): with one critical flag the unclamped score is 85 ≥ 15,
and a second critical flag lowers the score by exactly 15. -/
theorem c6_witness :
    validationScore (1 + 1) 0 0 = validationScore 1 0 0 - 15 :=
  (c6_score_formula_and_monotonicity 1 0 0).2 (by norm_num)

/-- Auxiliary bound: at least one critical flag caps the score at 85. -/
theorem validationScore_le_of_critical (c w i : Nat) (h : 1 ≤ c) :
    validationScore c w i ≤ 85 := by
  unfold validationScore
  have hc : (1 : Int) ≤ (c : Int) := by exact_mod_cast h
  have hs : (100 : Int) - 15 * c - 5 * w - 1 * i ≤ 85 := by
    have hw : (0 : Int) ≤ (w : Int) := Int.natCast_nonneg w
    have hi : (0 : Int) ≤ (i : Int) := Int.natCast_nonneg i
    nlinarith
  refine max_le (by norm_num) (le_trans (min_le_right _ _) hs)

/-- C7: validating a table with zero columns emits the critical
"too_few_columns" flag, scores at most 85, and sets needs-review — and
`validate_table` is total on such input (the 0/0 null fraction is NaN,
whose comparisons are false, not an exception). -/
theorem c7_zero_columns_flagged (df : PFrame) (md : TableMeta) (cs : String)
    (h : df.cols = []) :
    "too_few_columns" ∈ (validateTable df md cs).flags.critical ∧
    (validateTable df md cs).score ≤ 85 ∧
    (validateTable df md cs).needsReview = true := by
  obtain ⟨cols, n⟩ := df
  simp only at h
  subst h
  have hflags : (validateTable ⟨[], n⟩ md cs).flags =
      ⟨(if Frac.lt (md.headerConfidence.getD ⟨0, 1⟩) ⟨7, 10⟩
          then ["low_header_confidence"] else []) ++
        ((if n < 10 * dupCount ⟨[], n⟩ then ["excessive_duplicates"] else []) ++
          ["too_few_columns"]),
        (if !(n < 10 * dupCount ⟨[], n⟩) && 2 < dupCount ⟨[], n⟩
          then ["some_duplicates"] else []),
        (if n < 3 then ["small_table"] else [])⟩ := by
    simp [validateTable, Flags.append, checkHeaders, checkCompleteness,
      checkNumericValidity, checkSci, checkArtifacts, checkStats, Frac.lt]
  have hmem : "too_few_columns" ∈ (validateTable ⟨[], n⟩ md cs).flags.critical := by
    rw [hflags]
    simp
  refine ⟨hmem, ?_, ?_⟩
  · have hlen : 1 ≤ (validateTable ⟨[], n⟩ md cs).flags.critical.length :=
      List.length_pos.mpr (List.ne_nil_of_mem hmem)
    have hscore : (validateTable ⟨[], n⟩ md cs).score =
        validationScore (validateTable ⟨[], n⟩ md cs).flags.critical.length
          (validateTable ⟨[], n⟩ md cs).flags.warning.length
          (validateTable ⟨[], n⟩ md cs).flags.info.length := rfl
    rw [hscore]
    exact validationScore_le_of_critical _ _ _ hlen
  · have hlen : 0 < (validateTable ⟨[], n⟩ md cs).flags.critical.length :=
      List.length_pos.mpr (List.ne_nil_of_mem hmem)
    have hnr : (validateTable ⟨[], n⟩ md cs).needsReview =
        (decide (0 < (validateTable ⟨[], n⟩ md cs).flags.critical.length) ||
          decide (2 < (validateTable ⟨[], n⟩ md cs).flags.warning.length)) := rfl
    rw [hnr, decide_eq_true hlen, Bool.true_or]

/-- C7 (witness): the concrete empty frame (no columns, no rows) with no
metadata. -/
theorem c7_witness :
    "too_few_columns" ∈ (validateTable ⟨[], 0⟩ ⟨none⟩ "Unknown").flags.critical ∧
    (validateTable ⟨[], 0⟩ ⟨none⟩ "Unknown").score ≤ 85 ∧
    (validateTable ⟨[], 0⟩ ⟨none⟩ "Unknown").needsReview = true :=
  c7_zero_columns_flagged ⟨[], 0⟩ ⟨none⟩ "Unknown" rfl

theorem natDigitsGo_val : ∀ fuel n, n ≤ fuel → digitsValLE (natDigitsGo fuel n) = n := by
  intro fuel
  induction fuel with
  | zero =>
    intro n hn
    have : n = 0 := Nat.le_zero.mp hn
    subst this
    rfl
  | succ fuel ih =>
    intro n hn
    cases n with
    | zero => rfl
    | succ m =>
      have hdiv : (m + 1) / 10 ≤ fuel := by omega
      have hmod : (m + 1) % 10 < 10 := Nat.mod_lt _ (by omega)
      have hchar : (Nat.digitChar ((m + 1) % 10)).toNat - 48 = (m + 1) % 10 := by
        have : ∀ d, d < 10 → (Nat.digitChar d).toNat - 48 = d := by decide
        exact this _ hmod
      show (Nat.digitChar ((m + 1) % 10)).toNat - 48 + 10 * digitsValLE (natDigitsGo fuel ((m + 1) / 10)) = m + 1
      rw [hchar, ih _ hdiv]
      omega

theorem pyNatChars_injective : Function.Injective pyNatChars := by
  have hval : ∀ n, digitsValLE (pyNatChars n).reverse = n := by
    intro n
    by_cases h : n = 0
    · subst h; rfl
    · unfold pyNatChars
      rw [if_neg h, List.reverse_reverse]
      exact natDigitsGo_val n n (le_refl n)
  intro a b hab
  rw [← hval a, ← hval b, hab]

theorem natDigitsGo_digit : ∀ fuel n c, c ∈ natDigitsGo fuel n → ∃ d, d < 10 ∧ c = Nat.digitChar d := by
  intro fuel
  induction fuel with
  | zero =>
    intro n c hc
    cases n <;> simp [natDigitsGo] at hc
  | succ fuel ih =>
    intro n c hc
    cases n with
    | zero => simp [natDigitsGo] at hc
    | succ m =>
      rcases List.mem_cons.mp hc with rfl | hc2
      · exact ⟨(m + 1) % 10, Nat.mod_lt _ (by omega), rfl⟩
      · exact ih _ c hc2

theorem pyNatChars_no_underscore (n : Nat) : '_' ∉ pyNatChars n := by
  intro hmem
  unfold pyNatChars at hmem
  by_cases h : n = 0
  · rw [if_pos h] at hmem
    simp at hmem
  · rw [if_neg h] at hmem
    rcases natDigitsGo_digit n n '_' (List.mem_reverse.mp hmem) with ⟨d, hd, hchar⟩
    have : ∀ d, d < 10 → Nat.digitChar d ≠ '_' := by decide
    exact this d hd hchar.symm

/-! ### Claims C8 and C9 -/

/-- C8: `detect_headers` accepts the first strategy whose confidence
exceeds its own threshold, in the fixed order first-row-header (0.7),
type-propagation (0.6, tried only when upstream column-type metadata is
present and non-empty), data-pattern inference (0.5); when none exceeds
its threshold the descriptive fallback is used with confidence 0.3.  The
embedding is a total function, so a result is always returned and no
exception is possible. -/
theorem c8_detect_headers_cascade (df : SFrame) (ct : Option CTypes) :
    (Frac.lt ⟨7, 10⟩ (tryFirstRowHeader df).2 = true →
      detectHeaders df ct =
        ⟨(tryFirstRowHeader df).1, "first_row_header", (tryFirstRowHeader df).2⟩) ∧
    (Frac.lt ⟨7, 10⟩ (tryFirstRowHeader df).2 = false → ctPresent ct = true →
      Frac.lt ⟨6, 10⟩ (genHeadersFromTypes df (ct.getD [])).2 = true →
      detectHeaders df ct =
        ⟨(genHeadersFromTypes df (ct.getD [])).1, "column_type_inference",
          (genHeadersFromTypes df (ct.getD [])).2⟩) ∧
    (Frac.lt ⟨7, 10⟩ (tryFirstRowHeader df).2 = false →
      (ctPresent ct = false ∨ Frac.lt ⟨6, 10⟩ (genHeadersFromTypes df (ct.getD [])).2 = false) →
      Frac.lt ⟨1, 2⟩ (inferHeadersFromData df).2 = true →
      detectHeaders df ct =
        ⟨(inferHeadersFromData df).1, "data_pattern_inference", (inferHeadersFromData df).2⟩) ∧
    (Frac.lt ⟨7, 10⟩ (tryFirstRowHeader df).2 = false →
      (ctPresent ct = false ∨ Frac.lt ⟨6, 10⟩ (genHeadersFromTypes df (ct.getD [])).2 = false) →
      Frac.lt ⟨1, 2⟩ (inferHeadersFromData df).2 = false →
      detectHeaders df ct =
        ⟨(genDescriptiveHeaders df).1, "descriptive_numeric", ⟨3, 10⟩⟩) := by
  refine ⟨fun h1 => ?_, fun h1 h2 h3 => ?_, fun h1 h2 h3 => ?_, fun h1 h2 h3 => ?_⟩
  · simp [detectHeaders, h1]
  · simp [detectHeaders, h1, h2, h3]
  · rcases h2 with h2 | h2
    · simp [detectHeaders, detectTail, h1, h2, h3]
    · cases hp : ctPresent ct <;> simp [detectHeaders, detectTail, h1, h2, h3, hp]
  · rcases h2 with h2 | h2
    · simp [detectHeaders, detectTail, h1, h2, h3]
    · cases hp : ctPresent ct <;> simp [detectHeaders, detectTail, h1, h2, h3, hp]

/-- C8 (witness): a one-column frame of large numbers — the first row is
not header-like (confidence 0), no metadata is supplied, and the inferred
column type is generic numeric at exactly 0.5, which does not exceed its
threshold — so the descriptive fallback fires with confidence 0.3. -/
theorem c8_witness :
    detectHeaders ⟨[⟨some "0", [some "600", some "700"]⟩]⟩ none =
      ⟨⟨[⟨some "Column_A", [some "600", some "700"]⟩]⟩, "descriptive_numeric", ⟨3, 10⟩⟩ :=
  (c8_detect_headers_cascade ⟨[⟨some "0", [some "600", some "700"]⟩]⟩ none).2.2.2
    (by decide) (Or.inl (by decide)) (by decide)

/-- C9 (counterexample): header/type inference can emit duplicate
standardized names.  On a 2 × 2 grid of temperature-like values, neither
the first-row strategy nor metadata applies and data-pattern inference
names both columns "Temperature (°C)", with no collision resolution. -/
theorem c9_counterexample_duplicate_headers :
    ((detectHeaders ⟨[⟨some "0", [some "25", some "30"]⟩,
        ⟨some "1", [some "40", some "50"]⟩]⟩ none).frame.cols.map
      (fun c => colNameStr c.name)) = ["Temperature (°C)", "Temperature (°C)"] ∧
    ¬ ((detectHeaders ⟨[⟨some "0", [some "25", some "30"]⟩,
        ⟨some "1", [some "40", some "50"]⟩]⟩ none).frame.cols.map
      (fun c => colNameStr c.name)).Nodup := by
  decide

theorem lookupC_setC (m : List (String × Nat)) (s : String) (v : Nat) (t : String) :
    lookupC (setC m s v) t = if t = s then some v else lookupC m t := by
  induction m with
  | nil =>
    by_cases h : t = s
    · subst h
      simp [setC, lookupC, List.find?]
    · have h2 : decide (s = t) = false := decide_eq_false (fun he => h he.symm)
      simp [setC, lookupC, List.find?, h2, h]
  | cons e rest ih =>
    by_cases he : e.1 = s
    · have hset : setC (e :: rest) s v = (s, v) :: rest := by
        simp [setC, he]
      rw [hset]
      by_cases h : t = s
      · subst h
        simp [lookupC, List.find?]
      · have h2 : decide (s = t) = false := decide_eq_false (fun hx => h hx.symm)
        have h3 : decide (e.1 = t) = false := decide_eq_false (fun hx => h (hx ▸ he))
        simp [lookupC, List.find?, h2, h3, h]
    · have hset : setC (e :: rest) s v = e :: setC rest s v := by
        simp [setC, he]
      rw [hset]
      by_cases h : e.1 = t
      · have hts : ¬ t = s := fun hx => he (h.trans hx)
        simp [lookupC, List.find?, h, hts]
      · have hfind : ∀ l, lookupC (e :: l) t = lookupC l t := by
          intro l
          simp [lookupC, List.find?, h]
        rw [hfind, hfind, ih]

theorem append_underscore_inj :
    ∀ (u : List Char) (v : List Char) (u2 : List Char) (v2 : List Char),
      '_' ∉ u → '_' ∉ u2 → u ++ '_' :: v = u2 ++ '_' :: v2 → u = u2 ∧ v = v2 := by
  intro u
  induction u with
  | nil =>
    intro v u2 v2 _ hu2 h
    cases u2 with
    | nil =>
      simp only [List.nil_append] at h
      exact ⟨rfl, (List.cons.injEq .. |>.mp h).2⟩
    | cons c u2' =>
      exfalso
      simp only [List.nil_append, List.cons_append] at h
      have : '_' = c := (List.cons.injEq .. |>.mp h).1
      exact hu2 (this ▸ List.mem_cons_self c u2')
  | cons c u' ih =>
    intro v u2 v2 hu hu2 h
    cases u2 with
    | nil =>
      exfalso
      simp only [List.cons_append, List.nil_append] at h
      have : c = '_' := (List.cons.injEq .. |>.mp h).1
      exact hu (this ▸ List.mem_cons_self c u')
    | cons c2 u2' =>
      simp only [List.cons_append] at h
      have h1 : c = c2 := (List.cons.injEq .. |>.mp h).1
      have h2 : u' ++ '_' :: v = u2' ++ '_' :: v2 := (List.cons.injEq .. |>.mp h).2
      have hu' : '_' ∉ u' := fun hx => hu (List.mem_cons_of_mem c hx)
      have hu2' : '_' ∉ u2' := fun hx => hu2 (List.mem_cons_of_mem c2 hx)
      rcases ih v u2' v2 hu' hu2' h2 with ⟨hL, hR⟩
      exact ⟨by rw [h1, hL], hR⟩

theorem renderSuffixed_data (b : String) (n : Nat) :
    (renderSuffixed b n).data = b.data ++ '_' :: pyNatChars n := by
  show ((b ++ "_") ++ pyNatStr n).data = _
  rw [String.data_append, String.data_append]
  simp [pyNatStr]

theorem renderSuffixed_inj {b b2 : String} {n n2 : Nat}
    (hb : '_' ∉ b.data) (hb2 : '_' ∉ b2.data)
    (h : renderSuffixed b n = renderSuffixed b2 n2) : b = b2 ∧ n = n2 := by
  have hd : b.data ++ '_' :: pyNatChars n = b2.data ++ '_' :: pyNatChars n2 := by
    rw [← renderSuffixed_data, ← renderSuffixed_data, h]
  rcases append_underscore_inj b.data (pyNatChars n) b2.data (pyNatChars n2) hb hb2 hd
    with ⟨hL, hR⟩
  exact ⟨String.ext hL, pyNatChars_injective hR⟩

theorem underscore_mem_renderSuffixed (b : String) (n : Nat) :
    '_' ∈ (renderSuffixed b n).data := by
  rw [renderSuffixed_data]
  simp

theorem mcuGo_nodup_and_ok :
    ∀ (cols : List String) (counts : List (String × Nat)),
      (∀ c ∈ cols, '_' ∉ c.data) →
      (mcuGo counts cols).Nodup ∧ (∀ s ∈ mcuGo counts cols, OutOK counts s) := by
  intro cols
  induction cols with
  | nil => intro counts _; exact ⟨List.nodup_nil, by simp [mcuGo]⟩
  | cons col rest ih =>
    intro counts hcols
    have hcol : '_' ∉ col.data := hcols col (List.mem_cons_self col rest)
    have hrest : ∀ c ∈ rest, '_' ∉ c.data := fun c hc => hcols c (List.mem_cons_of_mem col hc)
    cases hl : lookupC counts col with
    | some k =>
      obtain ⟨nd', ok'⟩ := ih (setC counts col (k + 1)) hrest
      have hout : mcuGo counts (col :: rest) =
          renderSuffixed col (k + 1) :: mcuGo (setC counts col (k + 1)) rest := by
        simp [mcuGo, hl]
      rw [hout]
      constructor
      · refine List.nodup_cons.mpr ⟨?_, nd'⟩
        intro hmem
        rcases ok' _ hmem with ⟨hU, _⟩ | ⟨b, n, heq, hbU, _, hbound⟩
        · exact hU (underscore_mem_renderSuffixed col (k + 1))
        · rcases renderSuffixed_inj hcol hbU heq with ⟨rfl, rfl⟩
          have : k + 1 < k + 1 := hbound (k + 1) (by rw [lookupC_setC]; simp)
          omega
      · intro s hs
        rcases List.mem_cons.mp hs with rfl | hs2
        · exact Or.inr ⟨col, k + 1, rfl, hcol, by omega, fun k2 hk2 => by
            rw [hl] at hk2
            have hkk : k = k2 := Option.some.inj hk2
            omega⟩
        · rcases ok' s hs2 with ⟨hU, hnone⟩ | ⟨b, n, heq, hbU, hn1, hbound⟩
          · refine Or.inl ⟨hU, ?_⟩
            by_cases hsc : s = col
            · exfalso
              rw [lookupC_setC, if_pos hsc] at hnone
              exact Option.noConfusion hnone
            · rw [lookupC_setC, if_neg hsc] at hnone
              exact hnone
          · refine Or.inr ⟨b, n, heq, hbU, hn1, fun k2 hk2 => ?_⟩
            by_cases hbc : b = col
            · subst hbc
              rw [hl] at hk2
              have hkk : k = k2 := Option.some.inj hk2
              have hlt : k + 1 < n := hbound (k + 1) (by rw [lookupC_setC]; simp)
              omega
            · refine hbound k2 ?_
              rw [lookupC_setC, if_neg hbc]
              exact hk2
    | none =>
      obtain ⟨nd', ok'⟩ := ih (setC counts col 0) hrest
      have hout : mcuGo counts (col :: rest) = col :: mcuGo (setC counts col 0) rest := by
        simp [mcuGo, hl]
      rw [hout]
      constructor
      · refine List.nodup_cons.mpr ⟨?_, nd'⟩
        intro hmem
        rcases ok' _ hmem with ⟨_, hnone⟩ | ⟨b, n, heq, hbU, _, _⟩
        · rw [lookupC_setC, if_pos rfl] at hnone
          exact Option.noConfusion hnone
        · exact hcol (heq ▸ underscore_mem_renderSuffixed b n)
      · intro s hs
        rcases List.mem_cons.mp hs with rfl | hs2
        · exact Or.inl ⟨hcol, hl⟩
        · rcases ok' s hs2 with ⟨hU, hnone⟩ | ⟨b, n, heq, hbU, hn1, hbound⟩
          · refine Or.inl ⟨hU, ?_⟩
            by_cases hsc : s = col
            · exfalso
              rw [lookupC_setC, if_pos hsc] at hnone
              exact Option.noConfusion hnone
            · rw [lookupC_setC, if_neg hsc] at hnone
              exact hnone
          · refine Or.inr ⟨b, n, heq, hbU, hn1, fun k2 hk2 => ?_⟩
            by_cases hbc : b = col
            · subst hbc
              rw [hl] at hk2
              exact Option.noConfusion hk2
            · refine hbound k2 ?_
              rw [lookupC_setC, if_neg hbc]
              exact hk2

/-- C9 (amended): the collision-resolution helper `make_columns_unique`
(renaming the n-th repeat of `c` to `c_n`) produces pairwise-distinct
names whenever no original column name contains an underscore; the
header/type inference strategies themselves never invoke it and can emit
duplicate standardized names. -/
theorem c9_amended_unique_after_suffixing (cols : List String)
    (h : ∀ c ∈ cols, '_' ∉ c.data) : (makeColumnsUnique cols).Nodup :=
  (mcuGo_nodup_and_ok cols [] h).1

/-- C9 (witness): a concrete duplicate name is suffixed and the output is
pairwise distinct. -/
theorem c9_witness :
    (makeColumnsUnique ["a", "b", "a"]).Nodup ∧
    makeColumnsUnique ["a", "b", "a"] = ["a", "b", "a_1"] :=
  ⟨c9_amended_unique_after_suffixing ["a", "b", "a"] (by decide), by decide⟩

end SolubilityPipeline
